import Mathlib

/-!
Shallow embedding of the pycom-wrap lexer core
(`src/lsp/lexer/lex.rs`, `src/lsp/lexer/text_range.rs`,
`src/lsp/lexer/text_size.rs`, `src/lsp/lexer/string_parsing.rs`,
`src/lsp/comment_wrapper.rs`) together with theorems settling the
frozen claims about the natural-language specification.

Modelling conventions:
  * `TextSize` (a `u32` byte offset) is modelled by `Nat`; the lexer only
    ever adds small character byte-lengths to it, so no `u32` wraparound is
    reachable on the inputs of any theorem below.
  * Rust `f64` literal values are modelled by `Rat` with exact decimal
    semantics; every numeric example appearing in a claim is exactly
    representable both ways.
  * Rust `String` payloads of tokens are modelled by `List Char`; error
    messages are modelled by `String`.
  * fallible Rust code returning `Result` is modelled by the `Res` type
    below, which also threads the mutated lexer state and has a `timeout`
    case for fuel exhaustion of the Rust `loop`s and a `panic` case for
    `unreachable!` / `expect` panics.
-/

/-- UTF-8 byte length of a Unicode scalar value (Rust `char::len_utf8`). -/
def utf8Len (c : Char) : Nat :=
  if c.toNat < 0x80 then 1
  else if c.toNat < 0x800 then 2
  else if c.toNat < 0x10000 then 3
  else 4

/-- The single-quote character, written via its code point. -/
def squote : Char := Char.ofNat 39

/-- Half-open interval of byte offsets (`TextRange` in `text_range.rs`).
The Rust field names are `start` and `end`; `end` is a reserved word in
Lean, so the second field is called `stop`. -/
structure TextRange where
  start : Nat
  stop : Nat
deriving DecidableEq, Repr

/-- Unchecked constructor used inside the lexer embedding. Every call site
in `lex.rs` passes a start that was captured from the (monotone) cursor
before the end, so the `assert!(start <= end)` in `TextRange::new` never
fires there; the assert is modelled explicitly by `TextRange.new` below
for the range-algebra claims. -/
def TextRange.make (start stop : Nat) : TextRange := ⟨start, stop⟩

/-- `TextRange::new` with its `assert!(start <= end)` modelled as `none`
(the Rust code panics when the assertion fails). -/
def TextRange.new (start stop : Nat) : Option TextRange :=
  if start ≤ stop then some ⟨start, stop⟩ else none

/-- `TextRange::empty(offset)`. -/
def TextRange.empty (offset : Nat) : TextRange := ⟨offset, offset⟩

/-- `TextRange::cover` exactly as written in `text_range.rs` lines 79-84:
it takes the maximum of the starts and the minimum of the ends and feeds
them to the asserting constructor. -/
def TextRange.cover (a b : TextRange) : Option TextRange :=
  TextRange.new (max a.start b.start) (min a.stop b.stop)

/-- `TextRange::get_intersection` from `text_range.rs` (for comparison with
`cover`): same bounds computation but with an explicit emptiness check. -/
def TextRange.get_intersection (a b : TextRange) : Option TextRange :=
  let lo := max a.start b.start
  let hi := min a.stop b.stop
  if lo > hi then none else TextRange.new lo hi

/-- The union of two ranges as the specification describes `cover`:
minimum of starts, maximum of ends. -/
def TextRange.coverSpec (a b : TextRange) : TextRange :=
  ⟨min a.start b.start, max a.stop b.stop⟩

/-- Error kinds (`LexicalErrorType` in `lex.rs`). -/
inductive LexicalErrorType where
  | StringError
  | UnicodeError
  | NestingError
  | IndentationError
  | TabError
  | TabsAfterSpaces
  | DefaultArgumentError
  | DuplicateArgumentError (name : String)
  | PositionalArgumentError
  | UnpackedArgumentError
  | DuplicateKeywordArgumentError (name : String)
  | UnrecognizedToken (tok : Char)
  | FStringError
  | LineContinuationError
  | Eof
  | OtherError (msg : String)
deriving DecidableEq, Repr

/-- An error kind paired with the byte offset it was reported at
(`LexicalError` in `lex.rs`). -/
structure LexicalError where
  error : LexicalErrorType
  location : Nat
deriving DecidableEq, Repr

/-- A (tab count, space count) pair (`IndentationLevel` in `lex.rs`). -/
structure IndentationLevel where
  tabs : Nat
  spaces : Nat
deriving DecidableEq, Repr

instance : Inhabited IndentationLevel := ⟨⟨0, 0⟩⟩

/-- `IndentationLevel::compare_strict` from `lex.rs` lines 71-99. -/
def IndentationLevel.compare_strict (a b : IndentationLevel) (location : Nat) :
    Except LexicalError Ordering :=
  match compare a.tabs b.tabs with
  | .lt =>
      if a.spaces ≤ b.spaces then .ok .lt
      else .error ⟨.TabError, location⟩
  | .gt =>
      if a.spaces ≥ b.spaces then .ok .gt
      else .error ⟨.TabError, location⟩
  | .eq => .ok (compare a.spaces b.spaces)

/-- String literal kinds. Modelled from the spec: the repository's
`token.rs` (defining `StringKind`) is not in the source tree; §4.6 and the
glossary describe the plain kind plus raw/byte/unicode/f-string markers
and their 2-character raw combinations. -/
inductive StringKind where
  | String
  | RawString
  | Bytes
  | RawBytes
  | FString
  | RawFString
  | Unicode
deriving DecidableEq, Repr

/-- Length of the kind marker preceding the quote. Modelled from the spec
(§4.6: a 0/1/2-character kind marker). -/
def StringKind.prefixLen : StringKind → Nat
  | .String => 0
  | .RawString | .Bytes | .FString | .Unicode => 1
  | .RawBytes | .RawFString => 2

/-- One-character kind markers (`TryFrom<char> for StringKind`). Modelled
from the spec: `token.rs` is missing; §4.4 names raw/byte/unicode/f-string
markers. No claim depends on the exact marker set. -/
def StringKind.try_from_char (c : Char) : Option StringKind :=
  if c = 'r' ∨ c = 'R' then some .RawString
  else if c = 'b' ∨ c = 'B' then some .Bytes
  else if c = 'u' ∨ c = 'U' then some .Unicode
  else if c = 'f' ∨ c = 'F' then some .FString
  else none

/-- Two-character kind markers (`TryFrom<[char; 2]> for StringKind`).
Modelled from the spec, as for `try_from_char`. -/
def StringKind.try_from_pair (c1 c2 : Char) : Option StringKind :=
  let r := fun c => c = 'r' ∨ c = 'R'
  let b := fun c => c = 'b' ∨ c = 'B'
  let f := fun c => c = 'f' ∨ c = 'F'
  if (r c1 ∧ b c2) ∨ (b c1 ∧ r c2) then some .RawBytes
  else if (r c1 ∧ f c2) ∨ (f c1 ∧ r c2) then some .RawFString
  else none

/-- The payload-free token variants (operators, delimiters, layout and
bookkeeping tokens). Modelled from the spec, as `Token` below: gathering
them in one enumeration mirrors the missing `token.rs` variant list while
keeping the equality test on tokens a plain tag comparison. -/
inductive TokenOp where
  | EqEqual | Equal | Plus | PlusEqual | DoubleStarEqual | DoubleStar
  | StarEqual | Star | DoubleSlashEqual | DoubleSlash | SlashEqual | Slash
  | PercentEqual | Percent | VbarEqual | Vbar | CircumflexEqual | CircumFlex
  | AmperEqual | Amper | MinusEqual | Rarrow | Minus | AtEqual
  | At | NotEqual | Tilde | Lpar | Rpar | Lsqb
  | Rsqb | Lbrace | Rbrace | ColonEqual | Colon | Semi
  | LeftShiftEqual | LeftShift | LessEqual | Less | RightShiftEqual | RightShift
  | GreaterEqual | Greater | Comma | Ellipsis | Dot | Newline
  | NonLogicalNewline | WhiteSpace | Indent | Dedent | EndOfFile
deriving DecidableEq, Repr

/-- Tokens (`Token` in the missing `token.rs`). The variant list is
reconstructed from every use in `lex.rs` plus §3 of the spec; the fixed
keyword set is collapsed into one `Keyword` case carrying the spelling,
and the payload-free variants into one `Op` case carrying its `TokenOp`
code (Modelled from the spec, since `token.rs` with its per-keyword and
per-operator variants is not in the source tree; no claim distinguishes
what this collapsing identifies, and the aliases below keep every
variant's name). -/
inductive Token where
  | Int (value : Int)
  | Float (value : Rat)
  | Complex (real : Rat) (imag : Rat)
  | String (value : List Char) (kind : StringKind) (triple_quoted : Bool)
  | Comment (text : List Char)
  | Name (name : List Char)
  | Keyword (name : List Char)
  | Op (op : TokenOp)
deriving DecidableEq, Repr

/-- The `EqEqual` token (an alias for its `Token.Op` code). -/
abbrev Token.EqEqual : Token := Token.Op TokenOp.EqEqual

/-- The `Equal` token (an alias for its `Token.Op` code). -/
abbrev Token.Equal : Token := Token.Op TokenOp.Equal

/-- The `Plus` token (an alias for its `Token.Op` code). -/
abbrev Token.Plus : Token := Token.Op TokenOp.Plus

/-- The `PlusEqual` token (an alias for its `Token.Op` code). -/
abbrev Token.PlusEqual : Token := Token.Op TokenOp.PlusEqual

/-- The `DoubleStarEqual` token (an alias for its `Token.Op` code). -/
abbrev Token.DoubleStarEqual : Token := Token.Op TokenOp.DoubleStarEqual

/-- The `DoubleStar` token (an alias for its `Token.Op` code). -/
abbrev Token.DoubleStar : Token := Token.Op TokenOp.DoubleStar

/-- The `StarEqual` token (an alias for its `Token.Op` code). -/
abbrev Token.StarEqual : Token := Token.Op TokenOp.StarEqual

/-- The `Star` token (an alias for its `Token.Op` code). -/
abbrev Token.Star : Token := Token.Op TokenOp.Star

/-- The `DoubleSlashEqual` token (an alias for its `Token.Op` code). -/
abbrev Token.DoubleSlashEqual : Token := Token.Op TokenOp.DoubleSlashEqual

/-- The `DoubleSlash` token (an alias for its `Token.Op` code). -/
abbrev Token.DoubleSlash : Token := Token.Op TokenOp.DoubleSlash

/-- The `SlashEqual` token (an alias for its `Token.Op` code). -/
abbrev Token.SlashEqual : Token := Token.Op TokenOp.SlashEqual

/-- The `Slash` token (an alias for its `Token.Op` code). -/
abbrev Token.Slash : Token := Token.Op TokenOp.Slash

/-- The `PercentEqual` token (an alias for its `Token.Op` code). -/
abbrev Token.PercentEqual : Token := Token.Op TokenOp.PercentEqual

/-- The `Percent` token (an alias for its `Token.Op` code). -/
abbrev Token.Percent : Token := Token.Op TokenOp.Percent

/-- The `VbarEqual` token (an alias for its `Token.Op` code). -/
abbrev Token.VbarEqual : Token := Token.Op TokenOp.VbarEqual

/-- The `Vbar` token (an alias for its `Token.Op` code). -/
abbrev Token.Vbar : Token := Token.Op TokenOp.Vbar

/-- The `CircumflexEqual` token (an alias for its `Token.Op` code). -/
abbrev Token.CircumflexEqual : Token := Token.Op TokenOp.CircumflexEqual

/-- The `CircumFlex` token (an alias for its `Token.Op` code). -/
abbrev Token.CircumFlex : Token := Token.Op TokenOp.CircumFlex

/-- The `AmperEqual` token (an alias for its `Token.Op` code). -/
abbrev Token.AmperEqual : Token := Token.Op TokenOp.AmperEqual

/-- The `Amper` token (an alias for its `Token.Op` code). -/
abbrev Token.Amper : Token := Token.Op TokenOp.Amper

/-- The `MinusEqual` token (an alias for its `Token.Op` code). -/
abbrev Token.MinusEqual : Token := Token.Op TokenOp.MinusEqual

/-- The `Rarrow` token (an alias for its `Token.Op` code). -/
abbrev Token.Rarrow : Token := Token.Op TokenOp.Rarrow

/-- The `Minus` token (an alias for its `Token.Op` code). -/
abbrev Token.Minus : Token := Token.Op TokenOp.Minus

/-- The `AtEqual` token (an alias for its `Token.Op` code). -/
abbrev Token.AtEqual : Token := Token.Op TokenOp.AtEqual

/-- The `At` token (an alias for its `Token.Op` code). -/
abbrev Token.At : Token := Token.Op TokenOp.At

/-- The `NotEqual` token (an alias for its `Token.Op` code). -/
abbrev Token.NotEqual : Token := Token.Op TokenOp.NotEqual

/-- The `Tilde` token (an alias for its `Token.Op` code). -/
abbrev Token.Tilde : Token := Token.Op TokenOp.Tilde

/-- The `Lpar` token (an alias for its `Token.Op` code). -/
abbrev Token.Lpar : Token := Token.Op TokenOp.Lpar

/-- The `Rpar` token (an alias for its `Token.Op` code). -/
abbrev Token.Rpar : Token := Token.Op TokenOp.Rpar

/-- The `Lsqb` token (an alias for its `Token.Op` code). -/
abbrev Token.Lsqb : Token := Token.Op TokenOp.Lsqb

/-- The `Rsqb` token (an alias for its `Token.Op` code). -/
abbrev Token.Rsqb : Token := Token.Op TokenOp.Rsqb

/-- The `Lbrace` token (an alias for its `Token.Op` code). -/
abbrev Token.Lbrace : Token := Token.Op TokenOp.Lbrace

/-- The `Rbrace` token (an alias for its `Token.Op` code). -/
abbrev Token.Rbrace : Token := Token.Op TokenOp.Rbrace

/-- The `ColonEqual` token (an alias for its `Token.Op` code). -/
abbrev Token.ColonEqual : Token := Token.Op TokenOp.ColonEqual

/-- The `Colon` token (an alias for its `Token.Op` code). -/
abbrev Token.Colon : Token := Token.Op TokenOp.Colon

/-- The `Semi` token (an alias for its `Token.Op` code). -/
abbrev Token.Semi : Token := Token.Op TokenOp.Semi

/-- The `LeftShiftEqual` token (an alias for its `Token.Op` code). -/
abbrev Token.LeftShiftEqual : Token := Token.Op TokenOp.LeftShiftEqual

/-- The `LeftShift` token (an alias for its `Token.Op` code). -/
abbrev Token.LeftShift : Token := Token.Op TokenOp.LeftShift

/-- The `LessEqual` token (an alias for its `Token.Op` code). -/
abbrev Token.LessEqual : Token := Token.Op TokenOp.LessEqual

/-- The `Less` token (an alias for its `Token.Op` code). -/
abbrev Token.Less : Token := Token.Op TokenOp.Less

/-- The `RightShiftEqual` token (an alias for its `Token.Op` code). -/
abbrev Token.RightShiftEqual : Token := Token.Op TokenOp.RightShiftEqual

/-- The `RightShift` token (an alias for its `Token.Op` code). -/
abbrev Token.RightShift : Token := Token.Op TokenOp.RightShift

/-- The `GreaterEqual` token (an alias for its `Token.Op` code). -/
abbrev Token.GreaterEqual : Token := Token.Op TokenOp.GreaterEqual

/-- The `Greater` token (an alias for its `Token.Op` code). -/
abbrev Token.Greater : Token := Token.Op TokenOp.Greater

/-- The `Comma` token (an alias for its `Token.Op` code). -/
abbrev Token.Comma : Token := Token.Op TokenOp.Comma

/-- The `Ellipsis` token (an alias for its `Token.Op` code). -/
abbrev Token.Ellipsis : Token := Token.Op TokenOp.Ellipsis

/-- The `Dot` token (an alias for its `Token.Op` code). -/
abbrev Token.Dot : Token := Token.Op TokenOp.Dot

/-- The `Newline` token (an alias for its `Token.Op` code). -/
abbrev Token.Newline : Token := Token.Op TokenOp.Newline

/-- The `NonLogicalNewline` token (an alias for its `Token.Op` code). -/
abbrev Token.NonLogicalNewline : Token := Token.Op TokenOp.NonLogicalNewline

/-- The `WhiteSpace` token (an alias for its `Token.Op` code). -/
abbrev Token.WhiteSpace : Token := Token.Op TokenOp.WhiteSpace

/-- The `Indent` token (an alias for its `Token.Op` code). -/
abbrev Token.Indent : Token := Token.Op TokenOp.Indent

/-- The `Dedent` token (an alias for its `Token.Op` code). -/
abbrev Token.Dedent : Token := Token.Op TokenOp.Dedent

/-- The `EndOfFile` token (an alias for its `Token.Op` code). -/
abbrev Token.EndOfFile : Token := Token.Op TokenOp.EndOfFile

/-- The fixed keyword table. Modelled from the spec (§4.4: a fixed
keyword set for a Python-style language; `token.rs` is missing). No claim
depends on its exact contents. -/
def keywordTable : List (List Char) :=
  [("False").toList, ("None").toList, ("True").toList, ("and").toList,
   ("as").toList, ("assert").toList, ("async").toList, ("await").toList,
   ("break").toList, ("class").toList, ("continue").toList, ("def").toList,
   ("del").toList, ("elif").toList, ("else").toList, ("except").toList,
   ("finally").toList, ("for").toList, ("from").toList, ("global").toList,
   ("if").toList, ("import").toList, ("in").toList, ("is").toList,
   ("lambda").toList, ("nonlocal").toList, ("not").toList, ("or").toList,
   ("pass").toList, ("raise").toList, ("return").toList, ("while").toList,
   ("with").toList, ("yield").toList]

/-- `Token::try_get_keyword`. Modelled from the spec (see `keywordTable`). -/
def Token.try_get_keyword (name : List Char) : Option Token :=
  if name ∈ keywordTable then some (.Keyword name) else none

/-- A token paired with its source range (`TokenSpan` in `lex.rs`). -/
def TokenSpan := Token × TextRange
deriving instance DecidableEq, Repr for TokenSpan

/-- The bounded-lookahead character reader (`CharReader<T, 3>` in
`lex.rs`): the remaining unconsumed character source, the three window
slots, and the running byte cursor. -/
structure CharReader where
  source : List Char
  w0 : Option Char
  w1 : Option Char
  w2 : Option Char
  cursor : Nat
deriving DecidableEq, Repr

/-- `CharReader::next` (lex.rs lines 174-182): rotate the window left,
pull the next source character into the last slot, add its UTF-8 length
to the cursor when one was pulled, and return the new first slot. -/
def CharReader.next (r : CharReader) : Option Char × CharReader :=
  let n := r.source.head?
  let r' : CharReader :=
    { source := r.source.tail
      w0 := r.w1
      w1 := r.w2
      w2 := n
      cursor := r.cursor + (match n with | some c => utf8Len c | none => 0) }
  (r'.w0, r')

/-- `CharReader::new`: start from an empty window and advance three times
to fill it. -/
def CharReader.new (source : List Char) : CharReader :=
  ((((⟨source, none, none, none, 0⟩ : CharReader).next).2.next).2.next).2

/-- The lexer state (`Lexer<T>` in `lex.rs`): reader, start-of-logical-line
flag, bracket-nesting depth, indentation stack, output queue. The
indentation stack is a list whose HEAD is the top (the Rust `Vec` keeps
the top at the back); the queue is drained from the front, as in Rust. -/
structure Lexer where
  char_reader : CharReader
  at_begin_of_line : Bool
  nesting : Nat
  indentations : List IndentationLevel
  queue : List (Token × TextRange)
deriving DecidableEq, Repr

/-- `Lexer::char_cursor`. -/
def Lexer.char_cursor (s : Lexer) : Nat := s.char_reader.cursor

/-- `Lexer::next_char` (lex.rs lines 225-233): advance the reader once;
if the window then shows a CR immediately followed by LF, advance once
more (so the CR of a CRLF pair is swallowed); with the window empty the
returned character is `none`. -/
def Lexer.next_char (s : Lexer) : Option Char × Lexer :=
  let p := s.char_reader.next
  match p.2.w0, p.2.w1 with
  | some c0, some c1 =>
    if c0 = '\r' ∧ c1 = '\n' then
      let p2 := p.2.next
      (p2.1, { s with char_reader := p2.2 })
    else (p.1, { s with char_reader := p.2 })
  | some _, none => (p.1, { s with char_reader := p.2 })
  | none, _ => (none, { s with char_reader := p.2 })

/-- `Lexer::jump_forward_n_chars` (the returned cursor is read off the
resulting state at call sites). -/
def Lexer.jump_forward_n_chars (s : Lexer) : Nat → Lexer
  | 0 => s
  | n + 1 => (s.next_char).2.jump_forward_n_chars n

/-- `Lexer::new`: build the reader (pre-filling the 3-slot window, which
already consumes up to three source characters into the cursor) and skip
a leading byte-order mark. -/
def Lexer.new (input : List Char) : Lexer :=
  let l : Lexer :=
    { char_reader := CharReader.new input
      at_begin_of_line := true
      nesting := 0
      indentations := [⟨0, 0⟩]
      queue := [] }
  if l.char_reader.w0 = some (Char.ofNat 0xFEFF) then (l.next_char).2 else l

/-- Append one token span to the output queue (`self.queue.push(..)`). -/
def Lexer.push_queue (s : Lexer) (t : Token × TextRange) : Lexer :=
  { s with queue := s.queue ++ [t] }

/-- Result of a lexer operation: the Rust `Result` value together with the
mutated lexer state; `timeout` models exhaustion of the fuel bounding the
Rust `loop`s, `panic` models `unreachable!`/`expect` panics. -/
inductive Res (α : Type) where
  | ok (a : α) (s : Lexer)
  | error (e : LexicalError) (s : Lexer)
  | timeout
  | panic
deriving DecidableEq

/-- Sequencing of lexer operations (the Rust `?` operator with state
threading). -/
def Res.bind {α β : Type} (x : Res α) (f : α → Lexer → Res β) : Res β :=
  match x with
  | .ok a s => f a s
  | .error e s => .error e s
  | .timeout => .timeout
  | .panic => .panic

/-- Emit a token whose range runs from the current cursor to the cursor
after advancing `n` characters (the ubiquitous
`TextRange::new(self.char_cursor(), self.jump_forward_n_chars(n))`
pattern of `lex_next`). -/
def Lexer.emit (s : Lexer) (n : Nat) (t : Token) : Res (Token × TextRange) :=
  let s' := s.jump_forward_n_chars n
  .ok (t, TextRange.make s.char_cursor s'.char_cursor) s'

/-- Model of `unic_ucd_ident::is_xid_start` (an external crate's Unicode
table). Modelled from the spec (§4.4 names the XID_Start property): exact
on ASCII (letters only), approximate above U+0080; no claim depends on
the non-ASCII extent. -/
def is_xid_start (c : Char) : Bool :=
  c.isAlpha || (0x80 ≤ c.toNat && c.toNat < 0x1F000)

/-- Model of `unic_ucd_ident::is_xid_continue`; same caveats as
`is_xid_start`. -/
def is_xid_continue (c : Char) : Bool :=
  c.isAlphanum || c = '_' || (0x80 ≤ c.toNat && c.toNat < 0x1F000)

/-- Model of `unic_emoji_char::is_emoji_presentation` (an external
crate's Unicode table). Modelled from the spec (§4.4: characters with the
emoji-presentation property), approximated by the main emoji blocks; no
claim depends on its exact extent. -/
def is_emoji_presentation (c : Char) : Bool :=
  0x1F300 ≤ c.toNat && c.toNat ≤ 0x1FAFF

/-- `is_identifier_or_keywords_start` (lex.rs lines 1054-1061). -/
def is_identifier_or_keywords_start (c : Char) : Bool :=
  (('a' ≤ c && c ≤ 'z') || ('A' ≤ c && c ≤ 'Z') || c = '_') || is_xid_start c

/-- `is_identifier_or_keyword_continuation` (lex.rs lines 1063-1070). -/
def is_identifier_or_keyword_continuation (c : Char) : Bool :=
  (('a' ≤ c && c ≤ 'z') || ('A' ≤ c && c ≤ 'Z') || c = '_' ||
    ('0' ≤ c && c ≤ '9')) || is_xid_continue c

/-- `is_digit_of_radix` (lex.rs lines 1072-1080). The octal case accepts
`'0'..='8'` exactly as the source does; radixes other than 2/8/10/16 hit
`unimplemented!` in Rust and are unreachable from the lexer. -/
def is_digit_of_radix (c : Char) (radix : Nat) : Bool :=
  match radix with
  | 2 => decide ('0' ≤ c ∧ c ≤ '1')
  | 8 => decide ('0' ≤ c ∧ c ≤ '8')
  | 10 => decide ('0' ≤ c ∧ c ≤ '9')
  | 16 => decide (('0' ≤ c ∧ c ≤ '9') ∨ ('a' ≤ c ∧ c ≤ 'f') ∨ ('A' ≤ c ∧ c ≤ 'F'))
  | _ => false

/-- Message of the EOL-in-string error (lex.rs line 323). -/
def eolStringMsg : String := "EOL while scanning string literal"

/-- Message of the missing-exponent error (lex.rs lines 714-723). -/
def expIntMsg : String := "exponential numeric literal must be followed by an integer"

/-- Message of the dot-underscore and bare-trailing-exponent errors
(lex.rs lines 678 and 700). -/
def invalidUnderscoreMsg : String := "Invalid underscore"

/-- Message of the trailing-underscore error in `radix_run` (lex.rs line
857); the apostrophe is spelled via its code point. -/
def numericUnderscoreEndMsg : String :=
  "Numeric can" ++ String.singleton squote ++ "t end with _"

/-- Message of the leading-zero error (lex.rs line 796). -/
def leadingZeroMsg : String :=
  "An integer can" ++ String.singleton squote ++ "t have a leading 0"

/-- Stand-in for the `format!("Could not parse float: ..")` messages of
lex.rs lines 755 and 770-781; no claim depends on the formatted text. -/
def couldNotParseFloatMsg : String := "Could not parse float"

/-- Stand-in for the `format!("Could not parse integer: ..")` message of
lex.rs line 803. -/
def couldNotParseIntMsg : String := "Could not parse integer"

/-- Stand-in for the `err.to_string()` message of lex.rs line 823. -/
def radixParseErrMsg : String := "invalid digit found in string"

/-- Stand-in for the unknown-marker message of `StringKind::try_from`
(in the missing `token.rs`); modelled from the spec. -/
def unsupportedTagMsg : String := "Unsupported string kind marker"

/-- Identifier scanning loop (lex.rs lines 255-261): requires BOTH of the
first two window slots to be populated, pushes the current character,
advances, and stops after a character whose successor is not a
continuation character. -/
def ident_loop (fuel : Nat) (name : List Char) (s : Lexer) : Res (List Char) :=
  match fuel with
  | 0 => .timeout
  | fuel + 1 =>
    match s.char_reader.w0, s.char_reader.w1 with
    | some c1, some c2 =>
      let s' := (s.next_char).2
      if ¬ is_identifier_or_keyword_continuation c2 then .ok (name ++ [c1]) s'
      else ident_loop fuel (name ++ [c1]) s'
    | _, _ => .ok name s

/-- `Lexer::lex_identifier_or_keyword` (lex.rs lines 251-269). -/
def lex_identifier_or_keyword (fuel : Nat) (s : Lexer) : Res (Token × TextRange) :=
  let start_pos := s.char_cursor
  Res.bind (ident_loop fuel [] s) fun name s' =>
    match Token.try_get_keyword name with
    | some token => .ok (token, TextRange.make start_pos s'.char_cursor) s'
    | none => .ok (.Name name, TextRange.make start_pos s'.char_cursor) s'

/-- String content loop (lex.rs lines 309-351). The only branch that
advances the reader is the backslash branch (and the closing-quote
jumps); an ordinary content character is pushed WITHOUT advancing, so the
Rust loop spins forever on it — here that reappears as the recursive call
with an unchanged state, which exhausts any fuel. -/
def string_loop (fuel : Nat) (quote_char : Char) (is_triple_quoted : Bool)
    (content : List Char) (s : Lexer) : Res (List Char) :=
  match fuel with
  | 0 => .timeout
  | fuel + 1 =>
    match s.char_reader.w0 with
    | some c =>
      if c = '\\' then
        match s.next_char with
        | (some next_c, s') =>
          string_loop fuel quote_char is_triple_quoted (content ++ ['\\', next_c]) s'
        | (none, s') =>
          -- the `if let` failed: fall through the remaining checks with
          -- c still the backslash and the reader already advanced
          if c = '\n' ∧ ¬ is_triple_quoted then
            .error ⟨.OtherError eolStringMsg, s'.char_cursor⟩ s'
          else if c = quote_char then
            .ok content (s'.jump_forward_n_chars (if is_triple_quoted then 3 else 1))
          else string_loop fuel quote_char is_triple_quoted (content ++ [c]) s'
      else if c = '\n' ∧ ¬ is_triple_quoted then
        .error ⟨.OtherError eolStringMsg, s.char_cursor⟩ s
      else if c = quote_char then
        .ok content (s.jump_forward_n_chars (if is_triple_quoted then 3 else 1))
      else string_loop fuel quote_char is_triple_quoted (content ++ [c]) s
    | none =>
      .error ⟨(if is_triple_quoted then .Eof else .StringError), s.char_cursor⟩ s

/-- `Lexer::lex_string` (lex.rs lines 292-359). The Rust triple-quote test
`[Some(quote_char); 3] == self.window()[..3]` always has its first
conjunct true (the quote was read from slot 0), leaving the two written
here. The `none` case models the `expect("Quote character is expected!")`
panic, unreachable from both call sites. -/
def lex_string (fuel : Nat) (kind : StringKind) (s : Lexer) : Res (Token × TextRange) :=
  let start_pos := s.char_cursor
  let s := s.jump_forward_n_chars kind.prefixLen
  match s.char_reader.w0 with
  | none => .panic
  | some quote_char =>
    if s.char_reader.w1 = some quote_char ∧ s.char_reader.w2 = some quote_char then
      Res.bind (string_loop fuel quote_char true [] (s.jump_forward_n_chars 3))
        fun content s' =>
          .ok (.String content kind true, TextRange.make start_pos s'.char_cursor) s'
    else
      Res.bind (string_loop fuel quote_char false [] (s.jump_forward_n_chars 1))
        fun content s' =>
          .ok (.String content kind false, TextRange.make start_pos s'.char_cursor) s'

/-- `Lexer::try_lex_tagged_string` (lex.rs lines 271-290). -/
def try_lex_tagged_string (fuel : Nat) (s : Lexer) : Option (Res (Token × TextRange)) :=
  match s.char_reader.w0, s.char_reader.w1, s.char_reader.w2 with
  | some c, some q1, ow2 =>
    if q1 = '"' ∨ q1 = squote then
      match StringKind.try_from_char c with
      | some kind => some (lex_string fuel kind s)
      | none => some (.error ⟨.OtherError unsupportedTagMsg, s.char_cursor⟩ s)
    else
      match ow2 with
      | some q2 =>
        if q2 = '"' ∨ q2 = squote then
          match StringKind.try_from_pair c q1 with
          | some kind => some (lex_string fuel kind s)
          | none => some (.error ⟨.OtherError unsupportedTagMsg, s.char_cursor⟩ s)
        else none
      | none => none
  | _, _, _ => none

/-- Comment content loop (lex.rs lines 645-657). -/
def comment_loop (fuel : Nat) (start_pos : Nat) (value : List Char) (s : Lexer) :
    Res (Token × TextRange) :=
  match fuel with
  | 0 => .timeout
  | fuel + 1 =>
    match s.char_reader.w0 with
    | some c =>
      if c = '\n' ∨ c = '\r' then
        .ok (.Comment value, TextRange.make start_pos s.char_cursor) s
      else comment_loop fuel start_pos (value ++ [c]) (s.jump_forward_n_chars 1)
    | none => .ok (.Comment value, TextRange.make start_pos s.char_cursor) s

/-- `Lexer::lex_single_line_comment` (lex.rs lines 640-658); the
`assert!` that the current character is `'#'` holds at every call site
and is not modelled. -/
def lex_single_line_comment (fuel : Nat) (s : Lexer) : Res (Token × TextRange) :=
  let start_pos := s.char_cursor
  comment_loop fuel start_pos [] (s.jump_forward_n_chars 1)

/-- `Lexer::radix_run` (lex.rs lines 833-877). -/
def radix_run (fuel : Nat) (radix : Nat) (acc : List Char) (s : Lexer) :
    Res (List Char) :=
  match fuel with
  | 0 => .timeout
  | fuel + 1 =>
    match s.char_reader.w0, s.char_reader.w1 with
    | some c1, some c2 =>
      if is_digit_of_radix c1 radix then
        let s' := s.jump_forward_n_chars 1
        if ¬ is_digit_of_radix c2 radix ∧ c2 ≠ '_' then .ok (acc ++ [c1]) s'
        else radix_run fuel radix (acc ++ [c1]) s'
      else if c1 = '_' then
        if ¬ is_digit_of_radix c2 radix then
          .error ⟨.OtherError numericUnderscoreEndMsg, s.char_cursor⟩ s
        else radix_run fuel radix acc (s.jump_forward_n_chars 1)
      else .ok acc s
    | some c1, none =>
      if is_digit_of_radix c1 radix then .ok (acc ++ [c1]) (s.jump_forward_n_chars 1)
      else if c1 = '_' then
        .error ⟨.OtherError numericUnderscoreEndMsg, s.char_cursor⟩ s
      else .ok acc s
    | none, _ => .ok acc s

/-- Digit value of a character as `i64::from_str_radix` sees it. -/
def rustDigitVal (c : Char) (radix : Nat) : Option Nat :=
  let v :=
    if '0' ≤ c ∧ c ≤ '9' then some (c.toNat - 48)
    else if 'a' ≤ c ∧ c ≤ 'z' then some (c.toNat - 97 + 10)
    else if 'A' ≤ c ∧ c ≤ 'Z' then some (c.toNat - 65 + 10)
    else none
  match v with
  | some d => if d < radix then some d else none
  | none => none

/-- Largest `i64` value. -/
def i64Max : Nat := 9223372036854775807

/-- Model of `i64::from_str_radix` on the unsigned digit strings the lexer
produces: `none` on the empty string, on an invalid digit, and on
overflow past `i64::MAX`. -/
def i64_from_str_radix (text : List Char) (radix : Nat) : Option Int :=
  if text = [] then none
  else
    (text.foldl
        (fun acc c =>
          match acc, rustDigitVal c radix with
          | some a, some d => some (a * radix + d)
          | _, _ => none)
        (some 0)).bind
      fun n => if n ≤ i64Max then some ((n : Int)) else none

/-- Value of a digit string in base 10 (used for the exact rational model
of decimal-to-float conversion). -/
def digitsToNat (l : List Char) : Nat :=
  l.foldl (fun a c => a * 10 + (c.toNat - 48)) 0

/-- Exact-rational model of `<f64 as Num>::from_str_radix(text, 10)` (and
of `str::parse::<f64>` on the same digit shapes): digits with at most one
dot. The lexer only feeds it strings made of base-10 digits and at most
one dot, on which this model and IEEE parsing agree for every value a
claim mentions. -/
def f64_from_str_radix (text : List Char) : Option Rat :=
  if text = [] then none
  else if ¬ (text.all fun c => c.isDigit || c = '.') then none
  else
    match text.splitOn '.' with
    | [ip] => some (mkRat (Int.ofNat (digitsToNat ip)) 1)
    | [ip, fp] =>
        some (mkRat (Int.ofNat (digitsToNat ip * 10 ^ fp.length + digitsToNat fp))
          (10 ^ fp.length))
    | _ => none

/-- The scanning loop of `exponent_parts` (string_parsing.rs lines 41-58):
walk all windows of two consecutive characters, overwriting the
coefficient/exponent splits at each `e`/`E`; only an `e-` window clears
the sign. Byte indices and character indices agree on the (all-ASCII)
numeric texts the lexer produces. -/
def exponent_parts_loop (value : List Char) (rest : List Char) (idx : Nat)
    (st : List Char × Bool × List Char) : List Char × Bool × List Char :=
  match rest with
  | c1 :: c2 :: tail =>
    let st' :=
      if c1 = 'e' ∨ c1 = 'E' then
        if c2 = '+' then (value.take idx, st.2.1, value.drop (idx + 2))
        else if c2 = '-' then (value.take idx, false, value.drop (idx + 2))
        else (value.take idx, st.2.1, value.drop (idx + 1))
      else st
    exponent_parts_loop value (c2 :: tail) (idx + 1) st'
  | _ => st

/-- `exponent_parts` (string_parsing.rs lines 34-68): `none` models the
two `Err` cases for a missing coefficient or exponent part. -/
def exponent_parts (value : List Char) : Option (List Char × Bool × List Char) :=
  let st := exponent_parts_loop value value 0 ([], true, [])
  if st.1.length = 0 then none
  else if st.2.2.length = 0 then none
  else some st

/-- `<f64 as ParseExponentStr>::parse_exponent_str` (string_parsing.rs
lines 21-33): split at the exponent marker and multiply or divide the
coefficient by 10^exponent. The exponent strings produced by the lexer
are plain digit runs, so the power is a natural number; the guard's else
branch is unreachable from the lexer. -/
def parse_exponent_f64 (value : List Char) : Option Rat :=
  (exponent_parts value).bind fun st =>
    (f64_from_str_radix st.1).bind fun co =>
      (f64_from_str_radix st.2.2).bind fun ex =>
        if ex.den = 1 ∧ 0 ≤ ex.num then
          some (if st.2.1 then mkRat (co.num * Int.ofNat (10 ^ ex.num.toNat)) co.den
                else mkRat co.num (co.den * 10 ^ ex.num.toNat))
        else none

/-- Final classification of a scanned decimal literal (lex.rs lines
752-812): imaginary suffix, then float, then integer with its
leading-zero check. -/
def lex_number_finish (start_pos : Nat) (is_start_zero : Bool)
    (is_float : Bool) (is_scientific : Bool) (value_text : List Char)
    (s : Lexer) : Res (Token × TextRange) :=
  if s.char_reader.w0 = some 'j' ∨ s.char_reader.w0 = some 'J' then
    match f64_from_str_radix value_text with
    | some imag =>
      let s' := s.jump_forward_n_chars 1
      .ok (.Complex 0 imag, TextRange.make start_pos s'.char_cursor) s'
    | none => .error ⟨.OtherError couldNotParseFloatMsg, s.char_cursor⟩ s
  else if is_float then
    match (if is_scientific then parse_exponent_f64 value_text
           else f64_from_str_radix value_text) with
    | some value => .ok (.Float value, TextRange.make start_pos s.char_cursor) s
    | none => .error ⟨.OtherError couldNotParseFloatMsg, s.char_cursor⟩ s
  else if is_start_zero ∧ value_text.length > 1 then
    .error ⟨.OtherError leadingZeroMsg, s.char_cursor⟩ s
  else
    match i64_from_str_radix value_text 10 with
    | some value => .ok (.Int value, TextRange.make start_pos s.char_cursor) s
    | none => .error ⟨.OtherError couldNotParseIntMsg, s.char_cursor⟩ s

/-- Exponent phase of the decimal scanner (lex.rs lines 697-750). -/
def lex_number_exponent (fuel : Nat) (start_pos : Nat) (is_start_zero : Bool)
    (is_float : Bool) (value_text : List Char) (s : Lexer) : Res (Token × TextRange) :=
  match s.char_reader.w0, s.char_reader.w1 with
  | some e, none =>
    if e = 'e' ∨ e = 'E' then .error ⟨.OtherError invalidUnderscoreMsg, s.char_cursor⟩ s
    else lex_number_finish start_pos is_start_zero is_float false value_text s
  | some e, some c =>
    if e = 'e' ∨ e = 'E' then
      if c = '+' ∨ c = '-' then
        -- push the e/E verbatim, step onto the sign and push it
        -- lowercased, then step past it
        let vt := value_text ++ [e]
        match s.next_char with
        | (some bar, s1) =>
          let vt := vt ++ [bar.toLower]
          let s2 := s1.jump_forward_n_chars 1
          match s2.char_reader.w0 with
          | none => .error ⟨.OtherError expIntMsg, s2.char_cursor⟩ s2
          | some c2 =>
            if ¬ is_digit_of_radix c2 10 then
              .error ⟨.OtherError expIntMsg, s2.char_cursor⟩ s2
            else
              Res.bind (radix_run fuel 10 [] s2) fun run s3 =>
                lex_number_finish start_pos is_start_zero true true (vt ++ run) s3
        | (none, _) => .panic
      else if ¬ is_digit_of_radix c 10 then
        .error ⟨.OtherError expIntMsg, s.char_cursor + 2⟩ s
      else
        Res.bind (radix_run fuel 10 [] (s.jump_forward_n_chars 1)) fun run s' =>
          lex_number_finish start_pos is_start_zero true true
            ((value_text ++ [e.toLower]) ++ run) s'
    else lex_number_finish start_pos is_start_zero is_float false value_text s
  | none, _ => lex_number_finish start_pos is_start_zero is_float false value_text s

/-- Fraction phase of the decimal scanner (lex.rs lines 675-694). -/
def lex_number_dot (fuel : Nat) (start_pos : Nat) (is_start_zero : Bool)
    (value_text : List Char) (s : Lexer) : Res (Token × TextRange) :=
  match s.char_reader.w0, s.char_reader.w1 with
  | some '.', some '_' => .error ⟨.OtherError invalidUnderscoreMsg, s.char_cursor⟩ s
  | some '.', some c =>
    if is_digit_of_radix c 10 then
      Res.bind (radix_run fuel 10 [] (s.jump_forward_n_chars 1)) fun run s' =>
        lex_number_exponent fuel start_pos is_start_zero true
          ((value_text ++ ['.']) ++ run) s'
    else
      lex_number_exponent fuel start_pos is_start_zero true (value_text ++ ['.'])
        (s.jump_forward_n_chars 1)
  | some '.', none =>
    lex_number_exponent fuel start_pos is_start_zero true (value_text ++ ['.'])
      (s.jump_forward_n_chars 1)
  | _, _ => lex_number_exponent fuel start_pos is_start_zero false value_text s

/-- `Lexer::lex_number_radix` (lex.rs lines 817-831). -/
def lex_number_radix (fuel : Nat) (radix : Nat) (s : Lexer) : Res (Token × TextRange) :=
  let start_pos := s.char_cursor
  let s := s.jump_forward_n_chars 2
  Res.bind (radix_run fuel radix [] s) fun vt s' =>
    match i64_from_str_radix vt radix with
    | some value => .ok (.Int value, TextRange.make start_pos s'.char_cursor) s'
    | none => .error ⟨.OtherError radixParseErrMsg, s'.char_cursor⟩ s'

/-- `Lexer::lex_number` (lex.rs lines 660-815). -/
def lex_number (fuel : Nat) (s : Lexer) : Res (Token × TextRange) :=
  match s.char_reader.w0, s.char_reader.w1 with
  | some '0', some 'x' | some '0', some 'X' => lex_number_radix fuel 16 s
  | some '0', some 'o' | some '0', some 'O' => lex_number_radix fuel 8 s
  | some '0', some 'b' | some '0', some 'B' => lex_number_radix fuel 2 s
  | _, _ =>
    let start_pos := s.char_cursor
    let is_start_zero := s.char_reader.w0 = some '0'
    Res.bind (radix_run fuel 10 [] s) fun vt s' =>
      lex_number_dot fuel start_pos is_start_zero vt s'

/-- The whitespace run of `lex_next` (lex.rs lines 610-617). -/
def ws_run (fuel : Nat) (s : Lexer) : Res Unit :=
  match fuel with
  | 0 => .timeout
  | fuel + 1 =>
    match s.char_reader.w0 with
    | some c =>
      if c = ' ' ∨ c = '\t' ∨ c = '\x0c' then ws_run fuel (s.next_char).2
      else .ok () s
    | none => .ok () s

/-- `Lexer::lex_next` (lex.rs lines 361-638). The Rust `match` over the
three window slots is rendered as a sequential test chain in the same
arm order; the `none` case models the final `unreachable!` (the driver
only calls `lex_next` with a populated first slot). -/
def lex_next (fuel : Nat) (s : Lexer) : Res (Token × TextRange) :=
  match s.char_reader.w0 with
  | none => .panic
  | some c0 =>
    if '0' ≤ c0 ∧ c0 ≤ '9' then lex_number fuel s
    else if c0 = '#' then lex_single_line_comment fuel s
    else if c0 = '"' ∨ c0 = squote then lex_string fuel .String s
    else if c0 = '=' then
      (if s.char_reader.w1 = some '=' then s.emit 2 .EqEqual else s.emit 1 .Equal)
    else if c0 = '+' then
      (if s.char_reader.w1 = some '=' then s.emit 2 .PlusEqual else s.emit 1 .Plus)
    else if c0 = '*' then
      (if s.char_reader.w1 = some '*' then
        (if s.char_reader.w2 = some '=' then s.emit 3 .DoubleStarEqual else s.emit 2 .DoubleStar)
       else if s.char_reader.w1 = some '=' then s.emit 2 .StarEqual
       else s.emit 1 .Star)
    else if c0 = '/' then
      (if s.char_reader.w1 = some '/' then
        (if s.char_reader.w2 = some '=' then s.emit 3 .DoubleSlashEqual else s.emit 2 .DoubleSlash)
       else if s.char_reader.w1 = some '=' then s.emit 2 .SlashEqual
       else s.emit 1 .Slash)
    else if c0 = '%' then
      (if s.char_reader.w1 = some '=' then s.emit 2 .PercentEqual else s.emit 1 .Percent)
    else if c0 = '|' then
      (if s.char_reader.w1 = some '=' then s.emit 2 .VbarEqual else s.emit 1 .Vbar)
    else if c0 = '^' then
      (if s.char_reader.w1 = some '=' then s.emit 2 .CircumflexEqual else s.emit 1 .CircumFlex)
    else if c0 = '&' then
      (if s.char_reader.w1 = some '=' then s.emit 2 .AmperEqual else s.emit 1 .Amper)
    else if c0 = '-' then
      (if s.char_reader.w1 = some '=' then s.emit 2 .MinusEqual
       else if s.char_reader.w1 = some '>' then s.emit 2 .Rarrow
       else s.emit 1 .Minus)
    else if c0 = '@' then
      (if s.char_reader.w1 = some '=' then s.emit 2 .AtEqual else s.emit 1 .At)
    else if c0 = '!' then
      (if s.char_reader.w1 = some '=' then s.emit 2 .NotEqual
       else .error ⟨.UnrecognizedToken '!', s.char_cursor⟩ s)
    else if c0 = '~' then s.emit 1 .Tilde
    else if c0 = '(' then ({ s with nesting := s.nesting + 1 }).emit 1 .Lpar
    else if c0 = ')' then
      (if s.nesting = 0 then .error ⟨.NestingError, s.char_cursor⟩ s
       else ({ s with nesting := s.nesting - 1 }).emit 1 .Rpar)
    else if c0 = '[' then ({ s with nesting := s.nesting + 1 }).emit 1 .Lsqb
    else if c0 = ']' then
      (if s.nesting = 0 then .error ⟨.NestingError, s.char_cursor⟩ s
       else ({ s with nesting := s.nesting - 1 }).emit 1 .Rsqb)
    else if c0 = '{' then ({ s with nesting := s.nesting + 1 }).emit 1 .Lbrace
    else if c0 = '}' then
      (if s.nesting = 0 then .error ⟨.NestingError, s.char_cursor⟩ s
       else ({ s with nesting := s.nesting - 1 }).emit 1 .Rbrace)
    else if c0 = ':' then
      (if s.char_reader.w1 = some '=' then s.emit 2 .ColonEqual else s.emit 1 .Colon)
    else if c0 = ';' then s.emit 1 .Semi
    else if c0 = '<' then
      (if s.char_reader.w1 = some '<' then
        (if s.char_reader.w2 = some '=' then s.emit 3 .LeftShiftEqual else s.emit 2 .LeftShift)
       else if s.char_reader.w1 = some '=' then s.emit 2 .LessEqual
       else s.emit 1 .Less)
    else if c0 = '>' then
      (if s.char_reader.w1 = some '>' then
        (if s.char_reader.w2 = some '=' then s.emit 3 .RightShiftEqual else s.emit 2 .RightShift)
       else if s.char_reader.w1 = some '=' then s.emit 2 .GreaterEqual
       else s.emit 1 .Greater)
    else if c0 = ',' then s.emit 1 .Comma
    else if c0 = '.' then
      (if s.char_reader.w1 = some '.' ∧ s.char_reader.w2 = some '.' then s.emit 3 .Ellipsis else s.emit 1 .Dot)
    else if c0 = '\n' ∨ c0 = '\r' then
      (if s.nesting = 0 then ({ s with at_begin_of_line := true }).emit 1 .Newline
       else s.emit 1 .NonLogicalNewline)
    else if c0 = ' ' ∨ c0 = '\t' ∨ c0 = '\x0c' then
      Res.bind (ws_run fuel s) fun _ s' =>
        .ok (.WhiteSpace, TextRange.make s.char_cursor s'.char_cursor) s'
    else if c0 = '\\' ∧ (s.char_reader.w1 = some '\n' ∨ s.char_reader.w1 = some '\r') then
      .error ⟨.LineContinuationError, s.char_cursor⟩ s
    else if c0 = '\\' ∧ s.char_reader.w1 = none then
      .error ⟨.Eof, s.char_cursor⟩ s
    else if is_emoji_presentation c0 then s.emit 1 (.Name [c0])
    else .error ⟨.UnrecognizedToken c0, s.char_cursor⟩ s

/-- The end-of-input dedent flush of `populate_results_queue` (lex.rs
lines 918-923): pop and emit one `Dedent` per level above the base; the
fuel is instantiated with the stack length, which bounds the loop. -/
def flush_dedents : Nat → Lexer → Lexer
  | 0, s => s
  | n + 1, s =>
    if s.indentations.length = 1 then s
    else
      flush_dedents n
        (({ s with indentations := s.indentations.tail }).push_queue
          (Token.Dedent, TextRange.empty s.char_cursor))

/-- `Lexer::populate_results_queue` (lex.rs lines 879-929). -/
def populate_results_queue (fuel : Nat) (s : Lexer) : Res Unit :=
  match s.char_reader.w0 with
  | some c =>
    if is_identifier_or_keywords_start c then
      match try_lex_tagged_string fuel s with
      | some r => Res.bind r fun token s' => .ok () (s'.push_queue token)
      | none =>
        Res.bind (lex_identifier_or_keyword fuel s) fun token s' =>
          .ok () (s'.push_queue token)
    else
      Res.bind (lex_next fuel s) fun token s' =>
        if token.1 = Token.WhiteSpace then .ok () s'
        else .ok () (s'.push_queue token)
  | none =>
    if s.nesting > 0 then .error ⟨.Eof, s.char_cursor⟩ s
    else
      let s1 :=
        if ¬ s.at_begin_of_line then
          ({ s with at_begin_of_line := true }).push_queue
            (Token.Newline, TextRange.empty s.char_cursor)
        else s
      let s2 := flush_dedents s1.indentations.length s1
      .ok () (s2.push_queue (Token.EndOfFile, TextRange.empty s2.char_cursor))

/-- Leading-whitespace loop of `handle_indentations` (lex.rs lines
934-975). A line comment scanned here has its result DISCARDED (the Rust
statement drops the returned token), which is what makes comment-only
lines produce no `Comment` token. -/
def indent_loop (fuel : Nat) (lvl : IndentationLevel) (s : Lexer) :
    Res IndentationLevel :=
  match fuel with
  | 0 => .timeout
  | fuel + 1 =>
    match s.char_reader.w0 with
    | some c =>
      if c = ' ' then indent_loop fuel ⟨lvl.tabs, lvl.spaces + 1⟩ (s.next_char).2
      else if c = '\t' then
        if lvl.spaces ≠ 0 then .error ⟨.TabsAfterSpaces, s.char_cursor⟩ s
        else indent_loop fuel ⟨lvl.tabs + 1, lvl.spaces⟩ (s.next_char).2
      else if c = '#' then
        match lex_single_line_comment fuel s with
        | .timeout => .timeout
        | .panic => .panic
        | .ok _ s' => indent_loop fuel ⟨0, 0⟩ s'
        | .error _ s' => indent_loop fuel ⟨0, 0⟩ s'
      else if c = '\x0c' then indent_loop fuel ⟨0, 0⟩ (s.next_char).2
      else if c = '\n' ∨ c = '\r' then
        let s1 := s.jump_forward_n_chars 1
        indent_loop fuel ⟨0, 0⟩
          (s1.push_queue (Token.NonLogicalNewline,
            TextRange.make s.char_cursor s1.char_cursor))
      else .ok lvl { s with at_begin_of_line := false }
    | none => .ok ⟨0, 0⟩ s

/-- Dedent loop of `handle_indentations` (lex.rs lines 996-1021). The
`Indentations::pop` guard (which refuses to pop the last level) is kept
verbatim. -/
def dedent_loop (fuel : Nat) (lvl : IndentationLevel) (s : Lexer) : Res Unit :=
  match fuel with
  | 0 => .timeout
  | fuel + 1 =>
    let previous := s.indentations.headD default
    match lvl.compare_strict previous s.char_cursor with
    | .error e => .error e s
    | .ok .lt =>
      let popped :=
        if s.indentations.length = 1 then s.indentations else s.indentations.tail
      dedent_loop fuel lvl
        (({ s with indentations := popped }).push_queue
          (Token.Dedent, TextRange.empty s.char_cursor))
    | .ok .eq => .ok () s
    | .ok .gt => .error ⟨.IndentationError, s.char_cursor⟩ s

/-- `Lexer::handle_indentations` (lex.rs lines 931-1025). The stack read
`Indentations::current` (which `expect`s a non-empty stack) is modelled
by `headD`; the stack is non-empty in every reachable state. -/
def handle_indentations (fuel : Nat) (s : Lexer) : Res Unit :=
  Res.bind (indent_loop fuel ⟨0, 0⟩ s) fun lvl s' =>
    let previous := s'.indentations.headD default
    match lvl.compare_strict previous s'.char_cursor with
    | .error e => .error e s'
    | .ok .eq => .ok () s'
    | .ok .gt =>
      .ok () (({ s' with indentations := lvl :: s'.indentations }).push_queue
        (Token.Indent,
          TextRange.make (s'.char_cursor - lvl.spaces - lvl.tabs) s'.char_cursor))
    | .ok .lt => dedent_loop fuel lvl s'

/-- `Lexer::inner_next` (lex.rs lines 1027-1036). -/
def inner_next (fuel : Nat) (s : Lexer) : Res (Token × TextRange) :=
  match fuel with
  | 0 => .timeout
  | fuel + 1 =>
    match s.queue with
    | t :: rest => .ok t { s with queue := rest }
    | [] =>
      if s.at_begin_of_line then
        Res.bind (handle_indentations fuel s) fun _ s1 =>
          Res.bind (populate_results_queue fuel s1) fun _ s2 =>
            inner_next fuel s2
      else
        Res.bind (populate_results_queue fuel s) fun _ s1 =>
          inner_next fuel s1

/-- Drain the public token stream (the `Iterator` impl of lex.rs lines
1039-1052): pull tokens until the `EndOfFile` sentinel, which is consumed
without being exposed. -/
def collect_tokens_go (fuel : Nat) (s : Lexer) (acc : List (Token × TextRange)) :
    Res (List (Token × TextRange)) :=
  match fuel with
  | 0 => .timeout
  | fuel + 1 =>
    match inner_next fuel s with
    | .timeout => .timeout
    | .panic => .panic
    | .error e s' => .error e s'
    | .ok t s' =>
      if t.1 = Token.EndOfFile then .ok acc s'
      else collect_tokens_go fuel s' (acc ++ [t])

/-- The full public token stream of a source. -/
def collect_tokens (fuel : Nat) (s : Lexer) : Res (List (Token × TextRange)) :=
  collect_tokens_go fuel s []

/-- Tokens of a successful complete lex of `input`, `none` otherwise. -/
def lexed_tokens (fuel : Nat) (input : List Char) : Option (List (Token × TextRange)) :=
  match collect_tokens fuel (Lexer.new input) with
  | .ok ts _ => some ts
  | _ => none

/-- The error of a failed lex of `input`, `none` otherwise. -/
def lexed_error (fuel : Nat) (input : List Char) : Option LexicalError :=
  match collect_tokens fuel (Lexer.new input) with
  | .error e _ => some e
  | _ => none

/-- `to_char_index` from `comment_wrapper.rs` lines 186-200, with its two
accumulators (`idx` of the `enumerate` and the separately maintained
`num_chars`) kept verbatim. -/
def to_char_index_go (chars : List Char) (idx : Nat) (utf_8_sum : Nat)
    (utf_8_offset : Nat) (num_chars : Nat) : Nat :=
  match chars with
  | [] => num_chars
  | c :: rest =>
    if utf_8_sum ≥ utf_8_offset then idx
    else to_char_index_go rest (idx + 1) (utf_8_sum + utf8Len c) utf_8_offset (num_chars + 1)

/-- `to_char_index(chars, utf_8_offset)` from `comment_wrapper.rs`. -/
def to_char_index (chars : List Char) (utf_8_offset : Nat) : Nat :=
  to_char_index_go chars 0 0 utf_8_offset 0

/-- Total UTF-8 byte length of a character list. -/
def utf8LenList (l : List Char) : Nat := (l.map utf8Len).sum

/-- Structural reformulation of `to_char_index` used to prove its
characterization. -/
def char_index_fun (off : Nat) : List Char → Nat
  | [] => 0
  | c :: rest =>
    if off = 0 then 0
    else if off ≤ utf8Len c then 1
    else 1 + char_index_fun (off - utf8Len c) rest

/-- UTF-8 encoding of one scalar value as its byte sequence. -/
def utf8EncodeChar (c : Char) : List Nat :=
  let n := c.toNat
  if n < 0x80 then [n]
  else if n < 0x800 then [0xC0 + n / 64, 0x80 + n % 64]
  else if n < 0x10000 then
    [0xE0 + n / 4096, 0x80 + (n / 64) % 64, 0x80 + n % 64]
  else
    [0xF0 + n / 262144, 0x80 + (n / 4096) % 64, 0x80 + (n / 64) % 64, 0x80 + n % 64]

/-- UTF-8 byte string of a source text. -/
def utf8Bytes (l : List Char) : List Nat := (l.map utf8EncodeChar).flatten

/-- Rust `&source[range]`: the byte slice of a source under a
`TextRange` of byte offsets. -/
def slice_bytes (src : List Char) (r : TextRange) : List Nat :=
  ((utf8Bytes src).drop r.start).take (r.stop - r.start)

/-- The token produced by running the number scanner on a fresh reader
over `input` (ample fuel for the short claim examples). -/
def scanned_number (input : List Char) : Option Token :=
  match lex_number 40 (Lexer.new input) with
  | .ok t _ => some t.1
  | _ => none

/-- The error kind produced by the number scanner on `input`, if any. -/
def scanned_number_error (input : List Char) : Option LexicalErrorType :=
  match lex_number 40 (Lexer.new input) with
  | .error e _ => some e.error
  | _ => none

/-- Leading whitespace the indentation scanner accepts without a
`TabsAfterSpaces` error: only blank-like characters, with no tab while
the space count since the last form feed is positive. -/
def wsAccepted : Nat → List Char → Bool
  | _, [] => true
  | sp, c :: rest =>
    if c = ' ' then wsAccepted (sp + 1) rest
    else if c = '\t' then sp == 0 && wsAccepted sp rest
    else if c = '\x0c' then wsAccepted 0 rest
    else false

/-- The reader of `s` sits exactly at the start of `input`: the window
holds its first three characters and the unconsumed source is the rest. -/
def Lexer.positioned (s : Lexer) (input : List Char) : Prop :=
  s.char_reader.w0 = input[0]? ∧ s.char_reader.w1 = input[1]? ∧
    s.char_reader.w2 = input[2]? ∧ s.char_reader.source = input.drop 3

instance (s : Lexer) (input : List Char) : Decidable (s.positioned input) := by
  unfold Lexer.positioned
  infer_instance

/-- Count of a token kind in a stream. -/
def count_token (t : Token) (ts : List (Token × TextRange)) : Nat :=
  (ts.map Prod.fst).count t

/-- The 8-character source of the string-literal claim: quote, c, a, n,
backslash, quote, t, quote. -/
def c2_input : List Char := [squote, 'c', 'a', 'n', '\\', squote, 't', squote]

/-- A single-token numeric source terminated by a line break. -/
def c1_input : List Char := ['1', '\n']

/-- A non-triple-quoted string whose content hits a line terminator
immediately (the only terminating shape). -/
def c6_eol_input : List Char := [squote, '\n', squote]

/-- A non-triple-quoted string with ordinary content before its line
terminator. -/
def c6_diverging_input : List Char := [squote, 'a', '\n', 'b', squote]

/-- A comment-only line whose leading whitespace has a tab after a
space. -/
def c10_tab_input : List Char := [' ', '\t', '#', 'x', '\n']

/-- Multi-byte test text of the byte-offset-to-character-index claim
(`a`, U+10400, `b`, U+10400, `d`, as in the repository's own test). -/
def c8text : List Char := ['a', Char.ofNat 0x10400, 'b', Char.ofNat 0x10400, 'd']

/-- The indentation stack is non-empty with the zero level at the
bottom (its construction-time shape, preserved by every operation). -/
def good_stack (s : Lexer) : Prop := s.indentations.getLast? = some ⟨0, 0⟩

/-- `Indent`-minus-`Dedent` balance of a token list. -/
def tok_bal (ts : List (Token × TextRange)) : Int :=
  (count_token Token.Indent ts : Int) - count_token Token.Dedent ts

/-- No `EndOfFile` sentinel occurs in the list. -/
def eof_free (ts : List (Token × TextRange)) : Prop :=
  ∀ t ∈ ts, t.1 ≠ Token.EndOfFile

/-- A token the expression scanners can produce: neither an indentation
bookkeeping token nor the end-of-file sentinel. -/
def plain_token (t : Token) : Prop :=
  t ≠ Token.Indent ∧ t ≠ Token.Dedent ∧ t ≠ Token.EndOfFile

/-- Drain invariant of the token stream at balance `b` (the
`Indent`-minus-`Dedent` balance of the already-drained tokens): the stack
keeps its zero base, and either no `EndOfFile` is queued and the drained
plus queued balance equals the stack height above the base, or the
`EndOfFile` sentinel sits last in the queue with the stack already flushed
and the total balance zero. -/
def QInv (b : Int) (s : Lexer) : Prop :=
  good_stack s ∧
    ((eof_free s.queue ∧ b + tok_bal s.queue = (s.indentations.length : Int) - 1) ∨
     (∃ pre e, s.queue = pre ++ [(Token.EndOfFile, e)] ∧ eof_free pre ∧
        b + tok_bal pre = 0 ∧ s.indentations.length = 1))

@[simp] theorem Res.bind_ok {α β : Type} (a : α) (s : Lexer) (f : α → Lexer → Res β) :
    Res.bind (.ok a s) f = f a s := rfl

@[simp] theorem Res.bind_error {α β : Type} (e : LexicalError) (s : Lexer)
    (f : α → Lexer → Res β) : Res.bind (.error e s) f = .error e s := rfl

@[simp] theorem Res.bind_timeout {α β : Type} (f : α → Lexer → Res β) :
    Res.bind (.timeout : Res α) f = .timeout := rfl

@[simp] theorem Res.bind_panic {α β : Type} (f : α → Lexer → Res β) :
    Res.bind (.panic : Res α) f = .panic := rfl

theorem string_loop_stuck (q : Char) (t : Bool) (d : Char)
    (hd1 : d ≠ '\\') (hd2 : ¬ (d = '\n' ∧ ¬ t)) (hd3 : d ≠ q) :
    ∀ (fuel : Nat) (content : List Char) (s : Lexer),
      s.char_reader.w0 = some d → string_loop fuel q t content s = .timeout := by
  intro fuel
  induction fuel with
  | zero => intro content s _; rfl
  | succ n ih =>
    intro content s hw
    simp only [string_loop, hw]
    rw [if_neg hd1, if_neg hd2, if_neg hd3]
    exact ih (content ++ [d]) s hw

theorem inner_next_string_diverges (s : Lexer) (q d : Char)
    (hq : s.queue = []) (hb : s.at_begin_of_line = true)
    (hind : s.indentations = [⟨0, 0⟩])
    (h0 : s.char_reader.w0 = some q) (hquote : q = '"' ∨ q = squote)
    (hqsp : q ≠ ' ') (hqtab : q ≠ '\t') (hqhash : q ≠ '#') (hqff : q ≠ '\x0c')
    (hqnl : q ≠ '\n') (hqcr : q ≠ '\r')
    (hqnum : ¬ ('0' ≤ q ∧ q ≤ '9'))
    (hid : is_identifier_or_keywords_start q = false)
    (h1 : s.char_reader.w1 = some d)
    (hd1 : d ≠ '\\') (hd2 : d ≠ '\n') (hd3 : d ≠ q) (hd4 : d ≠ '\r')
    (hnt : ¬ (s.char_reader.w1 = some q ∧ s.char_reader.w2 = some q)) :
    ∀ g, inner_next g s = .timeout := by
  intro g
  match g with
  | 0 => rfl
  | 1 =>
    simp [inner_next, hq, hb, handle_indentations, indent_loop, Res.bind]
  | (k + 2) =>
    have hil : indent_loop (k + 1) ⟨0, 0⟩ s = .ok ⟨0, 0⟩ { s with at_begin_of_line := false } := by
      simp only [indent_loop, h0]
      rw [if_neg hqsp, if_neg hqtab, if_neg hqhash, if_neg hqff,
        if_neg (show ¬ (q = '\n' ∨ q = '\r') from by simp [hqnl, hqcr])]
    have hcmp : compare (0 : Nat) 0 = Ordering.eq := rfl
    have hhi : handle_indentations (k + 1) s = .ok () { s with at_begin_of_line := false } := by
      simp [handle_indentations, hil, Res.bind, hind, IndentationLevel.compare_strict, hcmp]
    set s1 : Lexer := { s with at_begin_of_line := false } with hs1
    have hjump : (s1.jump_forward_n_chars 1).char_reader.w0 = some d := by
      rcases hw2 : s.char_reader.w2 with _ | x <;>
        simp [Lexer.jump_forward_n_chars, Lexer.next_char, CharReader.next, hs1, h1, hw2, hd4]
    have hsl : ∀ f cont, string_loop f q false cont (s1.jump_forward_n_chars 1) = .timeout :=
      fun f cont => string_loop_stuck q false d hd1 (by simp [hd2]) hd3 f cont _ hjump
    have hlexs : lex_string (k + 1) .String s1 = .timeout := by
      simp only [lex_string, StringKind.prefixLen, Lexer.jump_forward_n_chars, h0]
      rw [if_neg hnt]
      simp only [Lexer.jump_forward_n_chars] at hsl
      rw [hsl]
      rfl
    have hlexn : lex_next (k + 1) s1 = .timeout := by
      simp only [lex_next, h0]
      rw [if_neg hqnum, if_neg hqhash, if_pos hquote, hlexs]
    have hpop : populate_results_queue (k + 1) s1 = .timeout := by
      simp only [populate_results_queue, h0, hid, Bool.false_eq_true, if_false, hlexn]
      rfl
    show inner_next (k + 2) s = .timeout
    simp only [inner_next, hq, hb, if_true, hhi, Res.bind_ok, hpop, Res.bind_timeout]

theorem collect_tokens_of_inner_timeout (s : Lexer)
    (h : ∀ g, inner_next g s = .timeout) :
    ∀ fuel, collect_tokens fuel s = .timeout := by
  intro fuel
  cases fuel with
  | zero => rfl
  | succ n => simp [collect_tokens, collect_tokens_go, h]

/-- C1: the claim fails on the code. For the single-token source `1`
followed by a line break, the lexer reports the ranges `[2, 2)` for both
the `Int` token and the `Newline` (the reader's cursor counts every
character pulled into the 3-slot lookahead window, so it already sits at
the end of the 2-byte source when scanning starts). Byte-slicing the
source with the reported spans yields nothing, while the source with
whitespace removed is the non-empty byte string `1`, so the concatenation
property and the byte-offset contract both fail. -/
theorem C1_spans_shifted_by_lookahead :
    lexed_tokens 20 c1_input =
      some [(Token.Int 1, ⟨2, 2⟩), (Token.Newline, ⟨2, 2⟩)] ∧
    (((lexed_tokens 20 c1_input).getD []).map fun t => slice_bytes c1_input t.2).flatten
      = [] ∧
    utf8Bytes (c1_input.filter fun c =>
      ¬ (c = ' ' ∨ c = '\t' ∨ c = '\x0c' ∨ c = '\n' ∨ c = '\r')) = [49] ∧
    ([] : List Nat) ≠ [49] := by decide

/-- C2: the claim fails on the code. Lexing the 8-character source
quote-c-a-n-backslash-quote-t-quote never terminates: the string content
loop of `lex_string` does not advance the reader past an ordinary
content character (here the `c`), so no fuel bound suffices and no
`String` token is ever produced. -/
theorem C2_string_scanner_diverges :
    ∀ fuel, collect_tokens fuel (Lexer.new c2_input) = .timeout ∧
      lexed_tokens fuel c2_input = none := by
  have h := inner_next_string_diverges (Lexer.new c2_input) squote 'c'
    (by decide) (by decide) (by decide) (by decide) (Or.inr rfl)
    (by decide) (by decide) (by decide) (by decide) (by decide) (by decide)
    (by decide) (by decide) (by decide) (by decide) (by decide) (by decide)
    (by decide) (by decide)
  intro fuel
  have hc := collect_tokens_of_inner_timeout _ h fuel
  exact ⟨hc, by simp [lexed_tokens, hc]⟩

/-- C3: `compare_strict` returns `Less` exactly when the tab counts are
ordered `<` with spaces `≤`, or tabs equal and spaces `<`; `Greater`
symmetrically; `Equal` exactly when both components agree; and a
`TabError` at the given location in every remaining case. In particular
(tabs 1, spaces 0) against (tabs 0, spaces 8) is a `TabError`. -/
theorem C3_compare_strict_characterization :
    (∀ (a b : IndentationLevel) (loc : Nat),
      (a.compare_strict b loc = .ok .lt ↔
        (a.tabs < b.tabs ∧ a.spaces ≤ b.spaces) ∨ (a.tabs = b.tabs ∧ a.spaces < b.spaces)) ∧
      (a.compare_strict b loc = .ok .gt ↔
        (b.tabs < a.tabs ∧ b.spaces ≤ a.spaces) ∨ (a.tabs = b.tabs ∧ b.spaces < a.spaces)) ∧
      (a.compare_strict b loc = .ok .eq ↔ (a.tabs = b.tabs ∧ a.spaces = b.spaces)) ∧
      (a.compare_strict b loc = .error ⟨.TabError, loc⟩ ↔
        ¬ (((a.tabs < b.tabs ∧ a.spaces ≤ b.spaces) ∨ (a.tabs = b.tabs ∧ a.spaces < b.spaces)) ∨
          ((b.tabs < a.tabs ∧ b.spaces ≤ a.spaces) ∨ (a.tabs = b.tabs ∧ b.spaces < a.spaces)) ∨
          (a.tabs = b.tabs ∧ a.spaces = b.spaces)))) ∧
    IndentationLevel.compare_strict ⟨1, 0⟩ ⟨0, 8⟩ 77 = .error ⟨.TabError, 77⟩ := by
  refine ⟨?_, rfl⟩
  intro a b loc
  rcases Nat.lt_trichotomy a.tabs b.tabs with h | h | h
  · have hc : compare a.tabs b.tabs = .lt := Nat.compare_eq_lt.mpr h
    unfold IndentationLevel.compare_strict
    rw [hc]
    by_cases hs : a.spaces ≤ b.spaces <;> simp [hs] <;> omega
  · have hc : compare a.tabs b.tabs = .eq := Nat.compare_eq_eq.mpr h
    unfold IndentationLevel.compare_strict
    rw [hc]
    rcases Nat.lt_trichotomy a.spaces b.spaces with h2 | h2 | h2
    · rw [Nat.compare_eq_lt.mpr h2]; simp; omega
    · rw [Nat.compare_eq_eq.mpr h2]; simp; omega
    · rw [Nat.compare_eq_gt.mpr h2]; simp; omega
  · have hc : compare a.tabs b.tabs = .gt := Nat.compare_eq_gt.mpr h
    unfold IndentationLevel.compare_strict
    rw [hc]
    by_cases hs : b.spaces ≤ a.spaces <;> simp [hs] <;> omega

/-- C4 (counterexample to the position part): for the source `)ab`
terminated by a line break, the unmatched closing bracket at byte offset
0 is reported as a `NestingError` at location 3 — the reader's cursor,
which sits past the bracket because of the lookahead prefill — not at
the bracket's own position. -/
theorem C4_counterexample_location :
    lexed_error 20 ([')'] ++ ("ab").toList ++ ['\n']) = some ⟨.NestingError, 3⟩ ∧
    ([')'] ++ ("ab").toList ++ ['\n'])[0]? = some ')' ∧
    (3 : Nat) ≠ 0 := by decide

/-- C4 (amended): in every lexer state whose current character is `)`,
`]` or `}` while the nesting counter is zero, `lex_next` returns a
`NestingError` located at the reader's running cursor (which sits ahead
of the bracket's own offset by the lookahead window) and leaves the
state — in particular the counter — untouched; and when the reader is
exhausted while the counter is nonzero, `populate_results_queue` returns
an `Eof` error. -/
theorem C4_nesting_and_eof_errors :
    (∀ (s : Lexer) (fuel : Nat) (c : Char), s.char_reader.w0 = some c →
      (c = ')' ∨ c = ']' ∨ c = '}') → s.nesting = 0 →
      lex_next fuel s = .error ⟨.NestingError, s.char_cursor⟩ s) ∧
    (∀ (s : Lexer) (fuel : Nat), s.char_reader.w0 = none → s.nesting ≠ 0 →
      populate_results_queue fuel s = .error ⟨.Eof, s.char_cursor⟩ s) := by
  constructor
  · intro s fuel c h hc hn
    rcases hc with rfl | rfl | rfl <;> simp [lex_next, h, hn, squote]
  · intro s fuel h hn
    simp [populate_results_queue, h, Nat.pos_of_ne_zero hn]

/-- Witness for C4: the two statements applied at concrete states — a
fresh lexer over the single character `)`, and an exhausted reader with
one open bracket. -/
theorem C4_nesting_and_eof_errors_witness :
    lex_next 5 (Lexer.new [')']) =
      .error ⟨.NestingError, (Lexer.new [')']).char_cursor⟩ (Lexer.new [')']) ∧
    populate_results_queue 5
        ({ char_reader := ⟨[], none, none, none, 7⟩, at_begin_of_line := false,
           nesting := 1, indentations := [⟨0, 0⟩], queue := [] } : Lexer) =
      .error ⟨.Eof, 7⟩
        ({ char_reader := ⟨[], none, none, none, 7⟩, at_begin_of_line := false,
           nesting := 1, indentations := [⟨0, 0⟩], queue := [] } : Lexer) :=
  ⟨C4_nesting_and_eof_errors.1 (Lexer.new [')']) 5 ')' (by decide) (Or.inl rfl) (by decide),
   C4_nesting_and_eof_errors.2 _ 5 rfl (by decide)⟩

/-- C6: the claim fails on the code, in two ways. Where the scanner does
reach an unescaped line terminator (that is, when the terminator is the
first content character), it reports `OtherError` with the message `EOL
while scanning string literal`, never the `StringError` kind; and when
any ordinary content character precedes the terminator, the content loop
never advances past it, so the lexer diverges instead of yielding any
error at all. -/
theorem C6_eol_wrong_kind_and_divergence :
    lexed_error 30 c6_eol_input = some ⟨.OtherError eolStringMsg, 3⟩ ∧
    (∀ loc, lexed_error 30 c6_eol_input ≠ some ⟨.StringError, loc⟩) ∧
    (∀ fuel, collect_tokens fuel (Lexer.new c6_diverging_input) = .timeout) := by
  refine ⟨by decide, ?_, ?_⟩
  · intro loc h
    rw [show lexed_error 30 c6_eol_input = some ⟨.OtherError eolStringMsg, 3⟩
      from by decide] at h
    simp at h
  · exact collect_tokens_of_inner_timeout _
      (inner_next_string_diverges (Lexer.new c6_diverging_input) squote 'a'
        (by decide) (by decide) (by decide) (by decide) (Or.inr rfl)
        (by decide) (by decide) (by decide) (by decide) (by decide) (by decide)
        (by decide) (by decide) (by decide) (by decide) (by decide) (by decide)
        (by decide) (by decide))

/-- C7: the claim fails on the code and the code contradicts its own
name and the union the spec describes. `cover` computes the maximum of
the starts and the minimum of the ends — the intersection bounds, copied
from `get_intersection` — so on the disjoint ranges `[0, 1)` and
`[2, 3)` the `assert!(start <= end)` inside `TextRange::new` fires (the
Rust code panics, modelled as `none`), and even on the overlapping
ranges `[0, 2)` and `[1, 3)` it returns the intersection `[1, 2)` rather
than the union `[0, 3)`. -/
theorem C7_cover_is_intersection_and_panics :
    TextRange.cover ⟨0, 1⟩ ⟨2, 3⟩ = none ∧
    TextRange.coverSpec ⟨0, 1⟩ ⟨2, 3⟩ = ⟨0, 3⟩ ∧
    TextRange.cover ⟨0, 2⟩ ⟨1, 3⟩ = some ⟨1, 2⟩ ∧
    TextRange.get_intersection ⟨0, 2⟩ ⟨1, 3⟩ = some ⟨1, 2⟩ ∧
    TextRange.coverSpec ⟨0, 2⟩ ⟨1, 3⟩ = ⟨0, 3⟩ := by decide

/-- C8 (counterexample): in the text `a`, U+10400, `b`, U+10400, `d`,
byte offset 3 lies strictly inside the character at index 1 (the first
U+10400, occupying bytes 1 through 4), yet `to_char_index` returns 2 —
the index one past the containing character — not 1. -/
theorem C8_counterexample_interior_offset :
    to_char_index c8text 3 = 2 ∧
    utf8LenList (c8text.take 1) < 3 ∧ 3 < utf8LenList (c8text.take 2) ∧
    (2 : Nat) ≠ 1 := by decide

/-- C9: the number scanner's example table. `0x2f` scans to `Int 47`,
`0.2` to the float one-fifth (`0.2` exactly, in the rational model of
`f64`), `1e+2` to the float 100, `2j` to the complex with real part 0
and imaginary part 2, `123_45_67_890` to `Int 1234567890` with the
grouping underscores dropped, and `0123` is rejected with the
leading-zero error. -/
theorem C9_number_scanner_examples :
    scanned_number (("0x2f").toList) = some (.Int 47) ∧
    scanned_number (("0.2").toList) = some (.Float (mkRat 1 5)) ∧
    scanned_number (("1e+2").toList) = some (.Float 100) ∧
    scanned_number (("2j").toList) = some (.Complex 0 2) ∧
    scanned_number (("123_45_67_890").toList) = some (.Int 1234567890) ∧
    scanned_number (("0123").toList) = none ∧
    scanned_number_error (("0123").toList) = some (.OtherError leadingZeroMsg) := by
  decide

/-- C10 (counterexample): the line consisting of a space, a tab, and the
comment `#x`, terminated by a line break, matches the claim's shape
(only blanks before a `#` comment), yet the lexer emits no
`NonLogicalNewline` for it: the tab after the space aborts the
indentation scan with a `TabsAfterSpaces` error before the comment is
ever reached, so the whole lex fails. -/
theorem C10_counterexample_tab_after_space :
    lexed_error 20 c10_tab_input = some ⟨.TabsAfterSpaces, 4⟩ ∧
    lexed_tokens 20 c10_tab_input = none := by decide

@[simp] theorem utf8LenList_nil : utf8LenList [] = 0 := rfl

@[simp] theorem utf8LenList_cons (c : Char) (l : List Char) :
    utf8LenList (c :: l) = utf8Len c + utf8LenList l := by
  simp [utf8LenList]

theorem char_index_fun_zero (l : List Char) : char_index_fun 0 l = 0 := by
  cases l <;> simp [char_index_fun]

theorem to_char_index_go_eq (off : Nat) :
    ∀ (chars : List Char) (idx sum : Nat),
      to_char_index_go chars idx sum off idx = idx + char_index_fun (off - sum) chars := by
  intro chars
  induction chars with
  | nil => intro idx sum; simp [to_char_index_go, char_index_fun]
  | cons c rest ih =>
    intro idx sum
    simp only [to_char_index_go, char_index_fun]
    by_cases h : sum ≥ off
    · rw [if_pos h]
      have h0 : off - sum = 0 := by omega
      rw [h0]
      simp
    · rw [if_neg h, ih (idx + 1) (sum + utf8Len c)]
      have hoff : ¬ (off - sum = 0) := by omega
      rw [if_neg hoff]
      by_cases h2 : off - sum ≤ utf8Len c
      · rw [if_pos h2]
        have h3 : off - (sum + utf8Len c) = 0 := by omega
        rw [h3, char_index_fun_zero]
      · rw [if_neg h2]
        have h3 : off - (sum + utf8Len c) = off - sum - utf8Len c := by omega
        rw [h3]
        omega

theorem to_char_index_eq (chars : List Char) (off : Nat) :
    to_char_index chars off = char_index_fun off chars := by
  simpa using to_char_index_go_eq off chars 0 0

theorem char_index_fun_le_length (chars : List Char) :
    ∀ off, char_index_fun off chars ≤ chars.length := by
  induction chars with
  | nil => intro off; simp [char_index_fun]
  | cons c rest ih =>
    intro off
    simp only [char_index_fun]
    split_ifs with h1 h2
    · simp
    · simp [Nat.succ_le_succ]
    · have := ih (off - utf8Len c)
      simp only [List.length_cons]
      omega

theorem char_index_fun_reaches (chars : List Char) :
    ∀ off, off ≤ utf8LenList (chars.take (char_index_fun off chars)) ∨
      char_index_fun off chars = chars.length := by
  induction chars with
  | nil => intro off; right; simp [char_index_fun]
  | cons c rest ih =>
    intro off
    simp only [char_index_fun]
    split_ifs with h1 h2
    · left; omega
    · left
      have h4 : (c :: rest).take 1 = [c] := rfl
      rw [h4, utf8LenList_cons, utf8LenList_nil]
      omega
    · rcases ih (off - utf8Len c) with h | h
      · left
        rw [Nat.add_comm 1 (char_index_fun (off - utf8Len c) rest)]
        simp only [List.take_succ_cons, utf8LenList_cons]
        omega
      · right
        rw [h]
        simp only [List.length_cons]
        omega

theorem char_index_fun_min (chars : List Char) :
    ∀ off m, m < char_index_fun off chars → utf8LenList (chars.take m) < off := by
  induction chars with
  | nil => intro off m h; simp [char_index_fun] at h
  | cons c rest ih =>
    intro off m h
    simp only [char_index_fun] at h
    split_ifs at h with h1 h2
    · omega
    · have : m = 0 := by omega
      subst this
      simp
      omega
    · cases m with
      | zero => simp; omega
      | succ m' =>
        have := ih (off - utf8Len c) m' (by omega)
        simp only [List.take_succ_cons, utf8LenList_cons]
        omega

theorem utf8LenList_take_mono (chars : List Char) :
    ∀ m m', m ≤ m' → utf8LenList (chars.take m) ≤ utf8LenList (chars.take m') := by
  induction chars with
  | nil => intro m m' _; simp
  | cons c rest ih =>
    intro m m' h
    cases m with
    | zero => simp
    | succ a =>
      cases m' with
      | zero => omega
      | succ b =>
        simp only [List.take_succ_cons, utf8LenList_cons]
        have := ih a b (by omega)
        omega

theorem utf8LenList_take_of_ge (chars : List Char) (k : Nat) (h : chars.length ≤ k) :
    utf8LenList (chars.take k) = utf8LenList chars := by
  rw [List.take_of_length_le h]

/-- C8 (amended): `to_char_index` returns the least count of leading
characters whose cumulative UTF-8 byte length reaches the offset (the
total character count when the offset lies beyond the text); in
particular, for a byte offset strictly inside a multi-byte character it
returns the index ONE PAST the character containing the offset. -/
theorem C8_to_char_index_characterization :
    ∀ (chars : List Char) (off : Nat),
      to_char_index chars off ≤ chars.length ∧
      (off ≤ utf8LenList (chars.take (to_char_index chars off)) ∨
        to_char_index chars off = chars.length) ∧
      (∀ m, m < to_char_index chars off → utf8LenList (chars.take m) < off) ∧
      (∀ k, utf8LenList (chars.take k) < off → off < utf8LenList (chars.take (k + 1)) →
        to_char_index chars off = k + 1) := by
  intro chars off
  rw [to_char_index_eq]
  refine ⟨char_index_fun_le_length chars off, char_index_fun_reaches chars off,
    char_index_fun_min chars off, ?_⟩
  intro k hk1 hk2
  rcases Nat.lt_trichotomy (char_index_fun off chars) (k + 1) with h | h | h
  · rcases char_index_fun_reaches chars off with hr | hr
    · have hmono := utf8LenList_take_mono chars (char_index_fun off chars) k (by omega)
      omega
    · have hlen := char_index_fun_le_length chars off
      have hc1 : utf8LenList (chars.take k) = utf8LenList chars :=
        utf8LenList_take_of_ge chars k (by omega)
      have hc2 : utf8LenList (chars.take (k + 1)) = utf8LenList chars :=
        utf8LenList_take_of_ge chars (k + 1) (by omega)
      have hck : utf8LenList (chars.take chars.length) = utf8LenList chars :=
        utf8LenList_take_of_ge chars chars.length (by omega)
      omega
  · exact h
  · have := char_index_fun_min chars off (k + 1) (by omega)
    omega

/-- Witness for C8 (amended): byte offset 3 of the multi-byte test text
lies strictly inside character 1, and `to_char_index` returns 1 + 1. -/
theorem C8_to_char_index_characterization_witness : to_char_index c8text 3 = 1 + 1 :=
  (C8_to_char_index_characterization c8text 3).2.2.2 1 (by decide) (by decide)

theorem next_char_state (s : Lexer) : ∃ r, (s.next_char).2 = { s with char_reader := r } := by
  unfold Lexer.next_char
  dsimp only
  split
  · split <;> exact ⟨_, rfl⟩
  · exact ⟨_, rfl⟩
  · exact ⟨_, rfl⟩

theorem jump_state (n : Nat) : ∀ s : Lexer,
    ∃ r, s.jump_forward_n_chars n = { s with char_reader := r } := by
  induction n with
  | zero => intro s; exact ⟨s.char_reader, rfl⟩
  | succ m ih =>
    intro s
    obtain ⟨r1, h1⟩ := next_char_state s
    obtain ⟨r2, h2⟩ := ih (s.next_char).2
    refine ⟨r2, ?_⟩
    show ((s.next_char).2).jump_forward_n_chars m = _
    rw [h2, h1]

@[simp] theorem next_char_queue (s : Lexer) : ((s.next_char).2).queue = s.queue := by
  obtain ⟨r, h⟩ := next_char_state s; rw [h]

@[simp] theorem next_char_indentations (s : Lexer) :
    ((s.next_char).2).indentations = s.indentations := by
  obtain ⟨r, h⟩ := next_char_state s; rw [h]

@[simp] theorem next_char_nesting (s : Lexer) : ((s.next_char).2).nesting = s.nesting := by
  obtain ⟨r, h⟩ := next_char_state s; rw [h]

@[simp] theorem next_char_at_begin (s : Lexer) :
    ((s.next_char).2).at_begin_of_line = s.at_begin_of_line := by
  obtain ⟨r, h⟩ := next_char_state s; rw [h]

@[simp] theorem jump_queue (s : Lexer) (n : Nat) :
    (s.jump_forward_n_chars n).queue = s.queue := by
  obtain ⟨r, h⟩ := jump_state n s; rw [h]

@[simp] theorem jump_indentations (s : Lexer) (n : Nat) :
    (s.jump_forward_n_chars n).indentations = s.indentations := by
  obtain ⟨r, h⟩ := jump_state n s; rw [h]

@[simp] theorem jump_nesting (s : Lexer) (n : Nat) :
    (s.jump_forward_n_chars n).nesting = s.nesting := by
  obtain ⟨r, h⟩ := jump_state n s; rw [h]

@[simp] theorem jump_at_begin (s : Lexer) (n : Nat) :
    (s.jump_forward_n_chars n).at_begin_of_line = s.at_begin_of_line := by
  obtain ⟨r, h⟩ := jump_state n s; rw [h]

@[simp] theorem push_queue_queue (s : Lexer) (t : Token × TextRange) :
    (s.push_queue t).queue = s.queue ++ [t] := rfl

@[simp] theorem push_queue_indentations (s : Lexer) (t : Token × TextRange) :
    (s.push_queue t).indentations = s.indentations := rfl

theorem positioned_w0 (s : Lexer) (c : Char) (l : List Char)
    (h : s.positioned (c :: l)) : s.char_reader.w0 = some c := by
  rw [h.1]; simp

theorem next_char_positioned (s : Lexer) (c : Char) (rest : List Char)
    (hpos : s.positioned (c :: rest)) (hno : rest.take 2 ≠ ['\r', '\n']) :
    ((s.next_char).2).positioned rest := by
  obtain ⟨h0, h1, h2, hsrc⟩ := hpos
  have hw0 : s.char_reader.w1 = rest[0]? := by simpa using h1
  have hw1 : s.char_reader.w2 = rest[1]? := by simpa using h2
  have hsrc' : s.char_reader.source = rest.drop 2 := by simpa [List.drop_drop] using hsrc
  have hhead : s.char_reader.source.head? = rest[2]? := by
    rw [hsrc']
    cases rest with
    | nil => rfl
    | cons a t =>
      cases t with
      | nil => rfl
      | cons b u => simp [List.head?_eq_getElem?]
  have htail : s.char_reader.source.tail = rest.drop 3 := by
    rw [hsrc']
    cases rest with
    | nil => rfl
    | cons a t =>
      cases t with
      | nil => rfl
      | cons b u => simp [List.drop_drop]
  unfold Lexer.next_char
  dsimp only
  unfold CharReader.next
  dsimp only
  rw [hw0, hw1]
  cases hr : rest with
  | nil =>
    simp only [List.getElem?_nil]
    constructor <;> simp_all [Lexer.positioned]
  | cons r0 t =>
    cases ht : t with
    | nil =>
      simp only [List.getElem?_cons_zero, List.getElem?_nil]
      subst hr ht
      constructor <;> simp_all [Lexer.positioned]
    | cons r1 u =>
      subst hr ht
      simp only [List.getElem?_cons_zero, List.getElem?_cons_succ]
      have hif : ¬ (r0 = '\r' ∧ r1 = '\n') := by
        intro ⟨ha, hb⟩
        exact hno (by simp [ha, hb])
      rw [if_neg hif]
      exact ⟨by simp [hw0], by simp [hw1], by simpa using hhead,
        by simpa using htail⟩

theorem take_two_ne_crlf_of_head (l : List Char) (h : ∀ c, l[0]? = some c → c ≠ '\r') :
    l.take 2 ≠ ['\r', '\n'] := by
  intro hc
  cases l with
  | nil => simp at hc
  | cons a t =>
    have := h a (by simp)
    cases t with
    | nil => simp at hc
    | cons b u =>
      simp [List.take_succ_cons] at hc
      exact this hc.1

theorem jump_one (s : Lexer) : s.jump_forward_n_chars 1 = (s.next_char).2 := rfl

theorem comment_loop_spec :
    ∀ (cs : List Char) (fuel : Nat) (rest : List Char) (s : Lexer) (sp : Nat) (acc : List Char),
      s.positioned (cs ++ '\n' :: rest) →
      (∀ x ∈ cs, x ≠ '\n' ∧ x ≠ '\r') →
      cs.length < fuel →
      ∃ s', comment_loop fuel sp acc s =
          .ok (.Comment (acc ++ cs), TextRange.make sp s'.char_cursor) s' ∧
        s'.positioned ('\n' :: rest) ∧ s'.queue = s.queue ∧
        s'.indentations = s.indentations ∧
        s'.at_begin_of_line = s.at_begin_of_line ∧ s'.nesting = s.nesting := by
  intro cs
  induction cs with
  | nil =>
    intro fuel rest s sp acc hpos hfree hfuel
    obtain ⟨f, rfl⟩ : ∃ f, fuel = f + 1 := ⟨fuel - 1, by omega⟩
    refine ⟨s, ?_, hpos, rfl, rfl, rfl, rfl⟩
    have hw0 : s.char_reader.w0 = some '\n' := positioned_w0 s '\n' rest hpos
    simp [comment_loop, hw0]
  | cons c cs' ih =>
    intro fuel rest s sp acc hpos hfree hfuel
    obtain ⟨f, rfl⟩ : ∃ f, fuel = f + 1 := ⟨fuel - 1, by omega⟩
    have hw0 : s.char_reader.w0 = some c := positioned_w0 s c _ (by simpa using hpos)
    have hc := hfree c (by simp)
    have hstep : ((s.next_char).2).positioned (cs' ++ '\n' :: rest) := by
      apply next_char_positioned s c _ (by simpa using hpos)
      apply take_two_ne_crlf_of_head
      intro d hd
      cases cs' with
      | nil =>
        simp at hd
        subst hd
        decide
      | cons e t =>
        simp at hd
        subst hd
        exact (hfree e (by simp)).2
    obtain ⟨s', h1, h2, h3, h4, h5, h6⟩ :=
      ih f rest (s.next_char).2 sp (acc ++ [c]) hstep
        (fun x hx => hfree x (by simp [hx])) (by simpa using hfuel)
    refine ⟨s', ?_, h2, by simpa using h3, by simpa using h4, by simpa using h5,
      by simpa using h6⟩
    simp only [comment_loop, hw0]
    rw [if_neg (by simp [hc.1, hc.2])]
    rw [jump_one, h1]
    simp

theorem wsAccepted_cases (sp : Nat) (w : Char) (l : List Char)
    (h : wsAccepted sp (w :: l) = true) :
    (w = ' ' ∧ wsAccepted (sp + 1) l = true) ∨
    (w = '\t' ∧ sp = 0 ∧ wsAccepted sp l = true) ∨
    (w = '\x0c' ∧ wsAccepted 0 l = true) := by
  unfold wsAccepted at h
  split_ifs at h with h1 h2 h3
  · exact Or.inl ⟨h1, h⟩
  · simp at h
    exact Or.inr (Or.inl ⟨h2, by omega, h.2⟩)
  · exact Or.inr (Or.inr ⟨h3, h⟩)

theorem wsAccepted_mem (l : List Char) :
    ∀ sp, wsAccepted sp l = true → ∀ x ∈ l, x = ' ' ∨ x = '\t' ∨ x = '\x0c' := by
  induction l with
  | nil => intro sp _ x hx; simp at hx
  | cons w t ih =>
    intro sp h x hx
    rcases wsAccepted_cases sp w t h with ⟨hw, h2⟩ | ⟨hw, _, h2⟩ | ⟨hw, h2⟩ <;>
      rcases List.mem_cons.mp hx with rfl | hx'
    · exact Or.inl hw
    · exact ih (sp + 1) h2 x hx'
    · exact Or.inr (Or.inl hw)
    · exact ih sp h2 x hx'
    · exact Or.inr (Or.inr hw)
    · exact ih 0 h2 x hx'


theorem indent_loop_space (f : Nat) (lvl : IndentationLevel) (s : Lexer)
    (h : s.char_reader.w0 = some ' ') :
    indent_loop (f + 1) lvl s = indent_loop f ⟨lvl.tabs, lvl.spaces + 1⟩ (s.next_char).2 := by
  conv_lhs => rw [indent_loop]
  simp [h]

theorem indent_loop_tab (f : Nat) (lvl : IndentationLevel) (s : Lexer)
    (h : s.char_reader.w0 = some '\t') (hsp : lvl.spaces = 0) :
    indent_loop (f + 1) lvl s = indent_loop f ⟨lvl.tabs + 1, lvl.spaces⟩ (s.next_char).2 := by
  conv_lhs => rw [indent_loop]
  simp [h, hsp]

theorem indent_loop_ff (f : Nat) (lvl : IndentationLevel) (s : Lexer)
    (h : s.char_reader.w0 = some '\x0c') :
    indent_loop (f + 1) lvl s = indent_loop f ⟨0, 0⟩ (s.next_char).2 := by
  conv_lhs => rw [indent_loop]
  simp [h]

theorem indent_loop_hash (f : Nat) (lvl : IndentationLevel) (s s1 : Lexer)
    (a : Token × TextRange)
    (h : s.char_reader.w0 = some '#')
    (hc : lex_single_line_comment f s = .ok a s1) :
    indent_loop (f + 1) lvl s = indent_loop f ⟨0, 0⟩ s1 := by
  conv_lhs => rw [indent_loop]
  simp [h, hc]

theorem indent_loop_newline (f : Nat) (lvl : IndentationLevel) (s : Lexer)
    (h : s.char_reader.w0 = some '\n') :
    indent_loop (f + 1) lvl s = indent_loop f ⟨0, 0⟩
      ((s.jump_forward_n_chars 1).push_queue
        (Token.NonLogicalNewline,
          TextRange.make s.char_cursor (s.jump_forward_n_chars 1).char_cursor)) := by
  conv_lhs => rw [indent_loop]
  simp [h]

theorem indent_loop_comment_line :
    ∀ (ws : List Char) (fuel : Nat) (cs rest : List Char) (s : Lexer)
      (lvl : IndentationLevel),
      wsAccepted lvl.spaces ws = true →
      (∀ x ∈ cs, x ≠ '\n' ∧ x ≠ '\r') →
      s.positioned (ws ++ '#' :: cs ++ '\n' :: rest) →
      ws.length + cs.length + 3 ≤ fuel →
      ∃ fuel' s' rng, fuel' < fuel ∧
        indent_loop fuel lvl s = indent_loop fuel' ⟨0, 0⟩ s' ∧
        s'.queue = s.queue ++ [(Token.NonLogicalNewline, rng)] ∧
        s'.indentations = s.indentations := by
  intro ws
  induction ws with
  | nil =>
    intro fuel cs rest s lvl hacc hfree hpos hfuel
    obtain ⟨f, rfl⟩ : ∃ f, fuel = f + 1 := ⟨fuel - 1, by omega⟩
    have hw0 : s.char_reader.w0 = some '#' := positioned_w0 s '#' _ (by simpa using hpos)
    have hstep : ((s.next_char).2).positioned (cs ++ '\n' :: rest) := by
      apply next_char_positioned s '#' _ (by simpa using hpos)
      apply take_two_ne_crlf_of_head
      intro d hd
      cases cs with
      | nil => simp at hd; subst hd; decide
      | cons e t => simp at hd; subst hd; exact (hfree e (by simp)).2
    obtain ⟨s1, hcl, hpos1, hq1, hi1, hb1, hn1⟩ :=
      comment_loop_spec cs f rest ((s.next_char).2) s.char_cursor []
        hstep hfree (by simp at hfuel ⊢; omega)
    have hcomm : lex_single_line_comment f s =
        .ok (Token.Comment ([] ++ cs), TextRange.make s.char_cursor s1.char_cursor) s1 := by
      show comment_loop f s.char_cursor [] (s.jump_forward_n_chars 1) = _
      rw [jump_one]
      exact hcl
    obtain ⟨f2, rfl⟩ : ∃ f2, f = f2 + 1 := ⟨f - 1, by simp at hfuel; omega⟩
    have hw1 : s1.char_reader.w0 = some '\n' := positioned_w0 s1 '\n' rest hpos1
    refine ⟨f2, ((s1.jump_forward_n_chars 1).push_queue
        (Token.NonLogicalNewline,
          TextRange.make s1.char_cursor (s1.jump_forward_n_chars 1).char_cursor)),
      TextRange.make s1.char_cursor (s1.jump_forward_n_chars 1).char_cursor,
      by omega, ?_, ?_, ?_⟩
    · rw [indent_loop_hash (f2 + 1) lvl s s1 _ hw0 hcomm,
        indent_loop_newline f2 ⟨0, 0⟩ s1 hw1]
    · simp [hq1]
    · simp [hi1]
  | cons w ws' ih =>
    intro fuel cs rest s lvl hacc hfree hpos hfuel
    obtain ⟨f, rfl⟩ : ∃ f, fuel = f + 1 := ⟨fuel - 1, by omega⟩
    have hw0 : s.char_reader.w0 = some w := positioned_w0 s w _ (by simpa using hpos)
    have hstep : ((s.next_char).2).positioned (ws' ++ '#' :: cs ++ '\n' :: rest) := by
      apply next_char_positioned s w _ (by simpa using hpos)
      apply take_two_ne_crlf_of_head
      intro d hd
      cases hws : ws' with
      | nil => subst hws; simp at hd; subst hd; decide
      | cons e t =>
        subst hws
        simp at hd
        subst hd
        rcases wsAccepted_mem (w :: e :: t) lvl.spaces hacc e (by simp) with h | h | h <;>
          simp [h]
    have hlen : ws'.length + cs.length + 3 ≤ f := by simp at hfuel; omega
    rcases wsAccepted_cases lvl.spaces w ws' hacc with ⟨hw, h2⟩ | ⟨hw, hsp, h2⟩ | ⟨hw, h2⟩
    · subst hw
      obtain ⟨fuel', s', rng, hlt, heq, hq, hi⟩ :=
        ih f cs rest ((s.next_char).2) ⟨lvl.tabs, lvl.spaces + 1⟩ h2 hfree hstep hlen
      exact ⟨fuel', s', rng, by omega,
        by rw [indent_loop_space f lvl s hw0]; exact heq,
        by simpa using hq, by simpa using hi⟩
    · subst hw
      obtain ⟨fuel', s', rng, hlt, heq, hq, hi⟩ :=
        ih f cs rest ((s.next_char).2) ⟨lvl.tabs + 1, lvl.spaces⟩
          (by simpa [hsp] using h2) hfree hstep hlen
      exact ⟨fuel', s', rng, by omega,
        by rw [indent_loop_tab f lvl s hw0 hsp]; exact heq,
        by simpa using hq, by simpa using hi⟩
    · subst hw
      obtain ⟨fuel', s', rng, hlt, heq, hq, hi⟩ :=
        ih f cs rest ((s.next_char).2) ⟨0, 0⟩ h2 hfree hstep hlen
      exact ⟨fuel', s', rng, by omega,
        by rw [indent_loop_ff f lvl s hw0]; exact heq,
        by simpa using hq, by simpa using hi⟩

theorem populate_comment_after_code (fuel : Nat) (cs rest : List Char) (s : Lexer)
    (hfree : ∀ x ∈ cs, x ≠ '\n' ∧ x ≠ '\r')
    (hpos : s.positioned ('#' :: cs ++ '\n' :: rest))
    (hfuel : cs.length + 2 ≤ fuel) :
    ∃ s' rng, populate_results_queue fuel s = .ok () s' ∧
      s'.queue = s.queue ++ [(Token.Comment cs, rng)] := by
  have hw0 : s.char_reader.w0 = some '#' := positioned_w0 s '#' _ hpos
  have hstep : ((s.next_char).2).positioned (cs ++ '\n' :: rest) := by
    apply next_char_positioned s '#' _ hpos
    apply take_two_ne_crlf_of_head
    intro d hd
    cases cs with
    | nil => simp at hd; subst hd; decide
    | cons e t => simp at hd; subst hd; exact (hfree e (by simp)).2
  obtain ⟨s1, hcl, hpos1, hq1, hi1, hb1, hn1⟩ :=
    comment_loop_spec cs fuel rest ((s.next_char).2) s.char_cursor []
      hstep hfree (by omega)
  have hcomm : lex_single_line_comment fuel s =
      .ok (Token.Comment ([] ++ cs), TextRange.make s.char_cursor s1.char_cursor) s1 := by
    show comment_loop fuel s.char_cursor [] (s.jump_forward_n_chars 1) = _
    rw [jump_one]
    exact hcl
  refine ⟨s1.push_queue (Token.Comment cs, TextRange.make s.char_cursor s1.char_cursor),
    TextRange.make s.char_cursor s1.char_cursor, ?_, by simp [hq1]⟩
  simp only [populate_results_queue, hw0]
  rw [if_neg (by decide)]
  have hlexn : lex_next fuel s =
      .ok (Token.Comment cs, TextRange.make s.char_cursor s1.char_cursor) s1 := by
    simp only [lex_next, hw0]
    simp only [if_true]
    simpa using hcomm
  rw [hlexn]
  simp

/-- C10 (amended): a line of blanks (with no tab after a space) followed
by a `#` comment and a line break contributes exactly one
`NonLogicalNewline` to the queue feeding the public stream — the comment
scanned during indentation handling is discarded and the indentation
loop simply continues past the line — whereas a `#` comment reached by
the token dispatcher (i.e. following code on its line) is pushed as a
`Comment` token carrying the text after the `#`. -/
theorem C10_comment_lines :
    (∀ (ws : List Char) (fuel : Nat) (cs rest : List Char) (s : Lexer)
        (lvl : IndentationLevel),
      wsAccepted lvl.spaces ws = true →
      (∀ x ∈ cs, x ≠ '\n' ∧ x ≠ '\r') →
      s.positioned (ws ++ '#' :: cs ++ '\n' :: rest) →
      ws.length + cs.length + 3 ≤ fuel →
      ∃ fuel' s' rng, fuel' < fuel ∧
        indent_loop fuel lvl s = indent_loop fuel' ⟨0, 0⟩ s' ∧
        s'.queue = s.queue ++ [(Token.NonLogicalNewline, rng)] ∧
        s'.indentations = s.indentations) ∧
    (∀ (fuel : Nat) (cs rest : List Char) (s : Lexer),
      (∀ x ∈ cs, x ≠ '\n' ∧ x ≠ '\r') →
      s.positioned ('#' :: cs ++ '\n' :: rest) →
      cs.length + 2 ≤ fuel →
      ∃ s' rng, populate_results_queue fuel s = .ok () s' ∧
        s'.queue = s.queue ++ [(Token.Comment cs, rng)]) :=
  ⟨indent_loop_comment_line, populate_comment_after_code⟩

/-- Witness for C10 (amended): the two statements applied to the
concrete comment-only line (space, hash, x, newline) and to a dispatcher
state at a `#`. -/
theorem C10_comment_lines_witness :
    (∃ fuel' s' rng, fuel' < 10 ∧
      indent_loop 10 ⟨0, 0⟩ (Lexer.new [' ', '#', 'x', '\n']) = indent_loop fuel' ⟨0, 0⟩ s' ∧
      s'.queue = (Lexer.new [' ', '#', 'x', '\n']).queue ++ [(Token.NonLogicalNewline, rng)] ∧
      s'.indentations = (Lexer.new [' ', '#', 'x', '\n']).indentations) ∧
    (∃ s' rng, populate_results_queue 10 (Lexer.new ['#', 'x', '\n']) = .ok () s' ∧
      s'.queue = (Lexer.new ['#', 'x', '\n']).queue ++ [(Token.Comment ['x'], rng)]) :=
  ⟨C10_comment_lines.1 [' '] 10 ['x'] [] (Lexer.new [' ', '#', 'x', '\n']) ⟨0, 0⟩
      (by decide) (by decide) (by decide) (by decide),
   C10_comment_lines.2 10 ['x'] [] (Lexer.new ['#', 'x', '\n'])
      (by decide) (by decide) (by decide)⟩

theorem ident_loop_frame :
    ∀ (fuel : Nat) (name : List Char) (s : Lexer) (r : List Char) (s' : Lexer),
      ident_loop fuel name s = .ok r s' →
      s'.queue = s.queue ∧ s'.indentations = s.indentations := by
  intro fuel
  induction fuel with
  | zero => intro name s r s' h; simp [ident_loop] at h
  | succ n ih =>
    intro name s r s' h
    simp only [ident_loop] at h
    split at h
    · split at h
      · simp only [Res.ok.injEq] at h
        obtain ⟨-, rfl⟩ := h
        simp
      · obtain ⟨h1, h2⟩ := ih _ _ _ _ h
        simp_all
    · simp only [Res.ok.injEq] at h
      obtain ⟨-, rfl⟩ := h
      exact ⟨rfl, rfl⟩





theorem string_loop_frame :
    ∀ (fuel : Nat) (q : Char) (t : Bool) (content : List Char) (s : Lexer)
      (r : List Char) (s' : Lexer),
      string_loop fuel q t content s = .ok r s' →
      s'.queue = s.queue ∧ s'.indentations = s.indentations := by
  intro fuel
  induction fuel with
  | zero => intro q t content s r s' h; simp [string_loop] at h
  | succ n ih =>
    intro q t content s r s' h
    simp only [string_loop] at h
    split at h
    · rename_i c hc
      split_ifs at h with h1 h2 h3 <;>
        (try split at h) <;>
        (first
          | exact Res.noConfusion h
          | (rename_i heq
             have hqn := next_char_queue s
             have hin := next_char_indentations s
             rw [heq] at hqn hin
             first
               | (simp only [Res.ok.injEq] at h
                  obtain ⟨-, rfl⟩ := h
                  simp only [jump_queue, jump_indentations]
                  exact ⟨hqn, hin⟩)
               | (obtain ⟨ha, hb⟩ := ih _ _ _ _ _ _ h
                  exact ⟨ha.trans hqn, hb.trans hin⟩))
          | exact ih _ _ _ _ _ _ h
          | (simp only [Res.ok.injEq] at h
             obtain ⟨-, rfl⟩ := h
             simp))
    · exact Res.noConfusion h

theorem plain_token_of_ne (t : Token) (h1 : t ≠ Token.Indent) (h2 : t ≠ Token.Dedent)
    (h3 : t ≠ Token.EndOfFile) : plain_token t := ⟨h1, h2, h3⟩

theorem count_token_append (t : Token) (a b : List (Token × TextRange)) :
    count_token t (a ++ b) = count_token t a + count_token t b := by
  simp [count_token]

theorem tok_bal_append (a b : List (Token × TextRange)) :
    tok_bal (a ++ b) = tok_bal a + tok_bal b := by
  simp only [tok_bal, count_token_append]
  push_cast
  ring

theorem tok_bal_nil : tok_bal [] = 0 := by simp [tok_bal, count_token]

theorem tok_bal_plain (t : Token) (r : TextRange) (h : plain_token t) :
    tok_bal [(t, r)] = 0 := by
  obtain ⟨h1, h2, -⟩ := h
  have e1 : List.count Token.Indent [t] = 0 := by
    rw [List.count_eq_zero]
    intro hm
    rw [List.mem_singleton] at hm
    exact h1 hm.symm
  have e2 : List.count Token.Dedent [t] = 0 := by
    rw [List.count_eq_zero]
    intro hm
    rw [List.mem_singleton] at hm
    exact h2 hm.symm
  simp [tok_bal, count_token, e1, e2]

theorem tok_bal_indent (r : TextRange) : tok_bal [(Token.Indent, r)] = 1 := by
  simp [tok_bal, count_token]

theorem tok_bal_dedent (r : TextRange) : tok_bal [(Token.Dedent, r)] = -1 := by
  simp [tok_bal, count_token]

theorem eof_free_nil : eof_free [] := by
  intro t ht
  simp at ht

theorem eof_free_append (a b : List (Token × TextRange)) (ha : eof_free a)
    (hb : eof_free b) : eof_free (a ++ b) := by
  intro t ht
  rcases List.mem_append.mp ht with h | h
  · exact ha t h
  · exact hb t h

theorem eof_free_single (t : Token × TextRange) (h : t.1 ≠ Token.EndOfFile) :
    eof_free [t] := by
  intro u hu
  rw [List.mem_singleton] at hu
  rw [hu]
  exact h

theorem bind_eq_ok {α β : Type} {x : Res α} {f : α → Lexer → Res β} {b : β} {s' : Lexer}
    (h : Res.bind x f = .ok b s') : ∃ a s1, x = .ok a s1 ∧ f a s1 = .ok b s' := by
  cases x with
  | ok a s1 => exact ⟨a, s1, rfl, h⟩
  | error e s1 => exact Res.noConfusion h
  | timeout => exact Res.noConfusion h
  | panic => exact Res.noConfusion h

theorem comment_loop_frame :
    ∀ (fuel p : Nat) (v : List Char) (s : Lexer) (r : Token × TextRange) (s' : Lexer),
      comment_loop fuel p v s = .ok r s' →
      s'.queue = s.queue ∧ s'.indentations = s.indentations ∧ ∃ w, r.1 = Token.Comment w := by
  intro fuel
  induction fuel with
  | zero => intro p v s r s' h; exact Res.noConfusion h
  | succ n ih =>
    intro p v s r s' h
    simp only [comment_loop] at h
    split at h
    · rename_i c hc
      split_ifs at h with h1
      · simp only [Res.ok.injEq] at h
        obtain ⟨rfl, rfl⟩ := h
        exact ⟨rfl, rfl, _, rfl⟩
      · obtain ⟨ha, hb, hw⟩ := ih _ _ _ _ _ h
        exact ⟨ha.trans (jump_queue s 1), hb.trans (jump_indentations s 1), hw⟩
    · simp only [Res.ok.injEq] at h
      obtain ⟨rfl, rfl⟩ := h
      exact ⟨rfl, rfl, _, rfl⟩

theorem comment_loop_no_error :
    ∀ (fuel p : Nat) (v : List Char) (s : Lexer) (e : LexicalError) (s' : Lexer),
      comment_loop fuel p v s = .error e s' → False := by
  intro fuel
  induction fuel with
  | zero => intro p v s e s' h; exact Res.noConfusion h
  | succ n ih =>
    intro p v s e s' h
    simp only [comment_loop] at h
    split at h
    · rename_i c hc
      split_ifs at h with h1 <;>
        first
          | exact Res.noConfusion h
          | exact ih _ _ _ _ _ h
    · exact Res.noConfusion h

theorem lex_single_line_comment_frame (fuel : Nat) (s : Lexer) (r : Token × TextRange)
    (s' : Lexer) (h : lex_single_line_comment fuel s = .ok r s') :
    s'.queue = s.queue ∧ s'.indentations = s.indentations ∧ ∃ w, r.1 = Token.Comment w := by
  simp only [lex_single_line_comment] at h
  obtain ⟨ha, hb, hw⟩ := comment_loop_frame _ _ _ _ _ _ h
  exact ⟨ha.trans (jump_queue s 1), hb.trans (jump_indentations s 1), hw⟩

theorem ws_run_frame :
    ∀ (fuel : Nat) (s : Lexer) (u : Unit) (s' : Lexer),
      ws_run fuel s = .ok u s' →
      s'.queue = s.queue ∧ s'.indentations = s.indentations := by
  intro fuel
  induction fuel with
  | zero => intro s u s' h; exact Res.noConfusion h
  | succ n ih =>
    intro s u s' h
    simp only [ws_run] at h
    split at h
    · rename_i c hc
      split_ifs at h with h1
      · obtain ⟨ha, hb⟩ := ih _ _ _ h
        exact ⟨ha.trans (next_char_queue s), hb.trans (next_char_indentations s)⟩
      · simp only [Res.ok.injEq] at h
        obtain ⟨-, rfl⟩ := h
        exact ⟨rfl, rfl⟩
    · simp only [Res.ok.injEq] at h
      obtain ⟨-, rfl⟩ := h
      exact ⟨rfl, rfl⟩

theorem radix_run_frame :
    ∀ (fuel radix : Nat) (acc : List Char) (s : Lexer) (r : List Char) (s' : Lexer),
      radix_run fuel radix acc s = .ok r s' →
      s'.queue = s.queue ∧ s'.indentations = s.indentations := by
  intro fuel
  induction fuel with
  | zero => intro radix acc s r s' h; exact Res.noConfusion h
  | succ n ih =>
    intro radix acc s r s' h
    simp only [radix_run] at h
    split at h <;>
      (try split_ifs at h) <;>
        first
          | exact Res.noConfusion h
          | (simp only [Res.ok.injEq] at h
             obtain ⟨-, rfl⟩ := h
             simp)
          | (obtain ⟨ha, hb⟩ := ih _ _ _ _ _ h
             exact ⟨ha.trans (jump_queue s 1), hb.trans (jump_indentations s 1)⟩)

theorem lex_number_finish_frame (p : Nat) (z f sc : Bool) (vt : List Char)
    (s : Lexer) (t : Token × TextRange) (s' : Lexer)
    (h : lex_number_finish p z f sc vt s = .ok t s') :
    s'.queue = s.queue ∧ s'.indentations = s.indentations ∧ plain_token t.1 := by
  simp only [lex_number_finish] at h
  split_ifs at h <;>
    (try split at h) <;>
      first
        | exact Res.noConfusion h
        | (simp only [Res.ok.injEq] at h
           obtain ⟨rfl, rfl⟩ := h
           exact ⟨by simp, by simp,
             plain_token_of_ne _ (by simp) (by simp) (by simp)⟩)

theorem lex_number_exponent_frame (fuel p : Nat) (z f : Bool) (vt : List Char)
    (s : Lexer) (t : Token × TextRange) (s' : Lexer)
    (h : lex_number_exponent fuel p z f vt s = .ok t s') :
    s'.queue = s.queue ∧ s'.indentations = s.indentations ∧ plain_token t.1 := by
  simp only [lex_number_exponent] at h
  split at h
  · split_ifs at h <;>
      first
        | exact Res.noConfusion h
        | exact lex_number_finish_frame _ _ _ _ _ _ _ _ h
  · split_ifs at h with h1 h2 h3 <;>
      first
        | exact Res.noConfusion h
        | exact lex_number_finish_frame _ _ _ _ _ _ _ _ h
        | (obtain ⟨run, s3, hrr, hfin⟩ := bind_eq_ok h
           obtain ⟨ha3, hb3⟩ := radix_run_frame _ _ _ _ _ _ hrr
           obtain ⟨ha4, hb4, hp⟩ := lex_number_finish_frame _ _ _ _ _ _ _ _ hfin
           refine ⟨?_, ?_, hp⟩
           · rw [ha4, ha3]
             simp
           · rw [hb4, hb3]
             simp)
        | (rw [show s.next_char = ((s.next_char).1, (s.next_char).2) from rfl] at h
           cases ho : (s.next_char).1 with
           | none =>
             rw [ho] at h
             exact Res.noConfusion h
           | some bar =>
             rw [ho] at h
             split at h
             · rename_i bar2 s1 heq
               injection heq with heq1 heq2
               subst heq2
               split at h
               · exact Res.noConfusion h
               · split_ifs at h <;>
                   first
                     | exact Res.noConfusion h
                     | (obtain ⟨run, s3, hrr, hfin⟩ := bind_eq_ok h
                        obtain ⟨ha3, hb3⟩ := radix_run_frame _ _ _ _ _ _ hrr
                        obtain ⟨ha4, hb4, hp⟩ :=
                          lex_number_finish_frame _ _ _ _ _ _ _ _ hfin
                        refine ⟨?_, ?_, hp⟩
                        · rw [ha4, ha3]
                          simp
                        · rw [hb4, hb3]
                          simp)
             · rename_i s1 heq
               exact absurd heq (by simp))
  · exact lex_number_finish_frame _ _ _ _ _ _ _ _ h

theorem lex_number_dot_frame (fuel p : Nat) (z : Bool) (vt : List Char)
    (s : Lexer) (t : Token × TextRange) (s' : Lexer)
    (h : lex_number_dot fuel p z vt s = .ok t s') :
    s'.queue = s.queue ∧ s'.indentations = s.indentations ∧ plain_token t.1 := by
  simp only [lex_number_dot] at h
  split at h <;>
    (try split_ifs at h) <;>
      first
        | exact Res.noConfusion h
        | exact lex_number_exponent_frame _ _ _ _ _ _ _ _ h
        | (obtain ⟨ha, hb, hp⟩ := lex_number_exponent_frame _ _ _ _ _ _ _ _ h
           refine ⟨?_, ?_, hp⟩
           · rw [ha]
             simp
           · rw [hb]
             simp)
        | (obtain ⟨run, s3, hrr, h2⟩ := bind_eq_ok h
           obtain ⟨ha3, hb3⟩ := radix_run_frame _ _ _ _ _ _ hrr
           obtain ⟨ha', hb', hp⟩ := lex_number_exponent_frame _ _ _ _ _ _ _ _ h2
           refine ⟨?_, ?_, hp⟩
           · rw [ha', ha3]
             simp
           · rw [hb', hb3]
             simp)

theorem lex_number_radix_frame (fuel radix : Nat) (s : Lexer) (t : Token × TextRange)
    (s' : Lexer) (h : lex_number_radix fuel radix s = .ok t s') :
    s'.queue = s.queue ∧ s'.indentations = s.indentations ∧ plain_token t.1 := by
  simp only [lex_number_radix] at h
  obtain ⟨vt, s1, hrr, h2⟩ := bind_eq_ok h
  obtain ⟨ha1, hb1⟩ := radix_run_frame _ _ _ _ _ _ hrr
  split at h2 <;>
    first
      | exact Res.noConfusion h2
      | (simp only [Res.ok.injEq] at h2
         obtain ⟨rfl, rfl⟩ := h2
         refine ⟨?_, ?_, plain_token_of_ne _ (by simp) (by simp) (by simp)⟩
         · rw [ha1]
           simp
         · rw [hb1]
           simp)

theorem lex_number_frame (fuel : Nat) (s : Lexer) (t : Token × TextRange)
    (s' : Lexer) (h : lex_number fuel s = .ok t s') :
    s'.queue = s.queue ∧ s'.indentations = s.indentations ∧ plain_token t.1 := by
  simp only [lex_number] at h
  split at h <;>
    first
      | exact lex_number_radix_frame _ _ _ _ _ h
      | (obtain ⟨vt, s1, hrr, h2⟩ := bind_eq_ok h
         obtain ⟨ha1, hb1⟩ := radix_run_frame _ _ _ _ _ _ hrr
         obtain ⟨ha', hb', hp⟩ := lex_number_dot_frame _ _ _ _ _ _ _ h2
         exact ⟨ha'.trans ha1, hb'.trans hb1, hp⟩)

theorem lex_string_frame (fuel : Nat) (kind : StringKind) (s : Lexer)
    (t : Token × TextRange) (s' : Lexer) (h : lex_string fuel kind s = .ok t s') :
    s'.queue = s.queue ∧ s'.indentations = s.indentations ∧ plain_token t.1 := by
  simp only [lex_string] at h
  split at h
  · exact Res.noConfusion h
  · split_ifs at h <;>
      (obtain ⟨content, s1, hsl, hok⟩ := bind_eq_ok h
       obtain ⟨ha1, hb1⟩ := string_loop_frame _ _ _ _ _ _ _ hsl
       simp only [Res.ok.injEq] at hok
       obtain ⟨rfl, rfl⟩ := hok
       refine ⟨?_, ?_, plain_token_of_ne _ (by simp) (by simp) (by simp)⟩
       · rw [ha1]
         simp
       · rw [hb1]
         simp)

theorem try_lex_tagged_string_frame (fuel : Nat) (s : Lexer) (r : Res (Token × TextRange))
    (t : Token × TextRange) (s' : Lexer) (hsome : try_lex_tagged_string fuel s = some r)
    (h : r = .ok t s') :
    s'.queue = s.queue ∧ s'.indentations = s.indentations ∧ plain_token t.1 := by
  subst h
  simp only [try_lex_tagged_string] at hsome
  split at hsome <;>
    (try split_ifs at hsome) <;>
      (try split at hsome) <;>
        (try split_ifs at hsome) <;>
          (try split at hsome) <;>
            first
              | exact Option.noConfusion hsome
              | (simp only [Option.some.injEq] at hsome
                 first
                   | exact lex_string_frame _ _ _ _ _ hsome
                   | exact Res.noConfusion hsome)

theorem lex_identifier_or_keyword_frame (fuel : Nat) (s : Lexer)
    (t : Token × TextRange) (s' : Lexer) (h : lex_identifier_or_keyword fuel s = .ok t s') :
    s'.queue = s.queue ∧ s'.indentations = s.indentations ∧ plain_token t.1 := by
  simp only [lex_identifier_or_keyword] at h
  obtain ⟨name, s1, hil, hok⟩ := bind_eq_ok h
  obtain ⟨ha1, hb1⟩ := ident_loop_frame _ _ _ _ _ hil
  clear h
  split at hok
  · rename_i token hk
    simp only [Res.ok.injEq] at hok
    obtain ⟨rfl, rfl⟩ := hok
    simp only [Token.try_get_keyword] at hk
    split at hk
    · injection hk with hkk
      subst hkk
      refine ⟨ha1, hb1, plain_token_of_ne _ ?_ ?_ ?_⟩ <;> simp
    · exact Option.noConfusion hk
  · simp only [Res.ok.injEq] at hok
    obtain ⟨rfl, rfl⟩ := hok
    refine ⟨ha1, hb1, plain_token_of_ne _ ?_ ?_ ?_⟩ <;> simp

theorem emit_frame (s : Lexer) (n : Nat) (tk : Token) (t : Token × TextRange) (s' : Lexer)
    (h : Lexer.emit s n tk = .ok t s') :
    s'.queue = s.queue ∧ s'.indentations = s.indentations ∧ t.1 = tk := by
  simp only [Lexer.emit, Res.ok.injEq] at h
  obtain ⟨rfl, rfl⟩ := h
  exact ⟨jump_queue s n, jump_indentations s n, rfl⟩




set_option maxHeartbeats 3200000 in
theorem lex_next_frame (fuel : Nat) (s : Lexer) (t : Token × TextRange) (s' : Lexer)
    (h : lex_next fuel s = .ok t s') :
    s'.queue = s.queue ∧ s'.indentations = s.indentations ∧ plain_token t.1 := by
  rw [lex_next.eq_def] at h
  split at h
  · exact Res.noConfusion h
  · rename_i c0 hc0
    by_cases hx1 : '0' ≤ c0 ∧ c0 ≤ '9'
    · rw [if_pos hx1] at h
      exact lex_number_frame _ _ _ _ h
    · rw [if_neg hx1] at h
      by_cases hx2 : c0 = '#'
      · rw [if_pos hx2] at h
        obtain ⟨ha, hb, hw⟩ := lex_single_line_comment_frame _ _ _ _ h
        obtain ⟨w, hww⟩ := hw
        exact ⟨ha, hb, plain_token_of_ne _ (by simp [hww]) (by simp [hww])
          (by simp [hww])⟩
      · rw [if_neg hx2] at h
        by_cases hx3 : c0 = '"' ∨ c0 = squote
        · rw [if_pos hx3] at h
          exact lex_string_frame _ _ _ _ _ h
        · rw [if_neg hx3] at h
          by_cases hx4 : c0 = '='
          · rw [if_pos hx4] at h
            (try split_ifs at h) <;>
              first
                | exact Res.noConfusion h
                | (obtain ⟨ha, hb, hc⟩ := emit_frame _ _ _ _ _ h
                   exact ⟨ha, hb, plain_token_of_ne _ (by simp [hc]) (by simp [hc])
                     (by simp [hc])⟩)
          · rw [if_neg hx4] at h
            by_cases hx5 : c0 = '+'
            · rw [if_pos hx5] at h
              (try split_ifs at h) <;>
                first
                  | exact Res.noConfusion h
                  | (obtain ⟨ha, hb, hc⟩ := emit_frame _ _ _ _ _ h
                     exact ⟨ha, hb, plain_token_of_ne _ (by simp [hc]) (by simp [hc])
                       (by simp [hc])⟩)
            · rw [if_neg hx5] at h
              by_cases hx6 : c0 = '*'
              · rw [if_pos hx6] at h
                (try split_ifs at h) <;>
                  first
                    | exact Res.noConfusion h
                    | (obtain ⟨ha, hb, hc⟩ := emit_frame _ _ _ _ _ h
                       exact ⟨ha, hb, plain_token_of_ne _ (by simp [hc]) (by simp [hc])
                         (by simp [hc])⟩)
              · rw [if_neg hx6] at h
                by_cases hx7 : c0 = '/'
                · rw [if_pos hx7] at h
                  (try split_ifs at h) <;>
                    first
                      | exact Res.noConfusion h
                      | (obtain ⟨ha, hb, hc⟩ := emit_frame _ _ _ _ _ h
                         exact ⟨ha, hb, plain_token_of_ne _ (by simp [hc]) (by simp [hc])
                           (by simp [hc])⟩)
                · rw [if_neg hx7] at h
                  by_cases hx8 : c0 = '%'
                  · rw [if_pos hx8] at h
                    (try split_ifs at h) <;>
                      first
                        | exact Res.noConfusion h
                        | (obtain ⟨ha, hb, hc⟩ := emit_frame _ _ _ _ _ h
                           exact ⟨ha, hb, plain_token_of_ne _ (by simp [hc]) (by simp [hc])
                             (by simp [hc])⟩)
                  · rw [if_neg hx8] at h
                    by_cases hx9 : c0 = '|'
                    · rw [if_pos hx9] at h
                      (try split_ifs at h) <;>
                        first
                          | exact Res.noConfusion h
                          | (obtain ⟨ha, hb, hc⟩ := emit_frame _ _ _ _ _ h
                             exact ⟨ha, hb, plain_token_of_ne _ (by simp [hc]) (by simp [hc])
                               (by simp [hc])⟩)
                    · rw [if_neg hx9] at h
                      by_cases hx10 : c0 = '^'
                      · rw [if_pos hx10] at h
                        (try split_ifs at h) <;>
                          first
                            | exact Res.noConfusion h
                            | (obtain ⟨ha, hb, hc⟩ := emit_frame _ _ _ _ _ h
                               exact ⟨ha, hb, plain_token_of_ne _ (by simp [hc]) (by simp [hc])
                                 (by simp [hc])⟩)
                      · rw [if_neg hx10] at h
                        by_cases hx11 : c0 = '&'
                        · rw [if_pos hx11] at h
                          (try split_ifs at h) <;>
                            first
                              | exact Res.noConfusion h
                              | (obtain ⟨ha, hb, hc⟩ := emit_frame _ _ _ _ _ h
                                 exact ⟨ha, hb, plain_token_of_ne _ (by simp [hc]) (by simp [hc])
                                   (by simp [hc])⟩)
                        · rw [if_neg hx11] at h
                          by_cases hx12 : c0 = '-'
                          · rw [if_pos hx12] at h
                            (try split_ifs at h) <;>
                              first
                                | exact Res.noConfusion h
                                | (obtain ⟨ha, hb, hc⟩ := emit_frame _ _ _ _ _ h
                                   exact ⟨ha, hb, plain_token_of_ne _ (by simp [hc]) (by simp [hc])
                                     (by simp [hc])⟩)
                          · rw [if_neg hx12] at h
                            by_cases hx13 : c0 = '@'
                            · rw [if_pos hx13] at h
                              (try split_ifs at h) <;>
                                first
                                  | exact Res.noConfusion h
                                  | (obtain ⟨ha, hb, hc⟩ := emit_frame _ _ _ _ _ h
                                     exact ⟨ha, hb, plain_token_of_ne _ (by simp [hc]) (by simp [hc])
                                       (by simp [hc])⟩)
                            · rw [if_neg hx13] at h
                              by_cases hx14 : c0 = '!'
                              · rw [if_pos hx14] at h
                                (try split_ifs at h) <;>
                                  first
                                    | exact Res.noConfusion h
                                    | (obtain ⟨ha, hb, hc⟩ := emit_frame _ _ _ _ _ h
                                       exact ⟨ha, hb, plain_token_of_ne _ (by simp [hc]) (by simp [hc])
                                         (by simp [hc])⟩)
                              · rw [if_neg hx14] at h
                                by_cases hx15 : c0 = '~'
                                · rw [if_pos hx15] at h
                                  (try split_ifs at h) <;>
                                    first
                                      | exact Res.noConfusion h
                                      | (obtain ⟨ha, hb, hc⟩ := emit_frame _ _ _ _ _ h
                                         exact ⟨ha, hb, plain_token_of_ne _ (by simp [hc]) (by simp [hc])
                                           (by simp [hc])⟩)
                                · rw [if_neg hx15] at h
                                  by_cases hx16 : c0 = '('
                                  · rw [if_pos hx16] at h
                                    (try split_ifs at h) <;>
                                      first
                                        | exact Res.noConfusion h
                                        | (obtain ⟨ha, hb, hc⟩ := emit_frame _ _ _ _ _ h
                                           exact ⟨ha, hb, plain_token_of_ne _ (by simp [hc]) (by simp [hc])
                                             (by simp [hc])⟩)
                                  · rw [if_neg hx16] at h
                                    by_cases hx17 : c0 = ')'
                                    · rw [if_pos hx17] at h
                                      (try split_ifs at h) <;>
                                        first
                                          | exact Res.noConfusion h
                                          | (obtain ⟨ha, hb, hc⟩ := emit_frame _ _ _ _ _ h
                                             exact ⟨ha, hb, plain_token_of_ne _ (by simp [hc]) (by simp [hc])
                                               (by simp [hc])⟩)
                                    · rw [if_neg hx17] at h
                                      by_cases hx18 : c0 = '['
                                      · rw [if_pos hx18] at h
                                        (try split_ifs at h) <;>
                                          first
                                            | exact Res.noConfusion h
                                            | (obtain ⟨ha, hb, hc⟩ := emit_frame _ _ _ _ _ h
                                               exact ⟨ha, hb, plain_token_of_ne _ (by simp [hc]) (by simp [hc])
                                                 (by simp [hc])⟩)
                                      · rw [if_neg hx18] at h
                                        by_cases hx19 : c0 = ']'
                                        · rw [if_pos hx19] at h
                                          (try split_ifs at h) <;>
                                            first
                                              | exact Res.noConfusion h
                                              | (obtain ⟨ha, hb, hc⟩ := emit_frame _ _ _ _ _ h
                                                 exact ⟨ha, hb, plain_token_of_ne _ (by simp [hc]) (by simp [hc])
                                                   (by simp [hc])⟩)
                                        · rw [if_neg hx19] at h
                                          by_cases hx20 : c0 = '{'
                                          · rw [if_pos hx20] at h
                                            (try split_ifs at h) <;>
                                              first
                                                | exact Res.noConfusion h
                                                | (obtain ⟨ha, hb, hc⟩ := emit_frame _ _ _ _ _ h
                                                   exact ⟨ha, hb, plain_token_of_ne _ (by simp [hc]) (by simp [hc])
                                                     (by simp [hc])⟩)
                                          · rw [if_neg hx20] at h
                                            by_cases hx21 : c0 = '}'
                                            · rw [if_pos hx21] at h
                                              (try split_ifs at h) <;>
                                                first
                                                  | exact Res.noConfusion h
                                                  | (obtain ⟨ha, hb, hc⟩ := emit_frame _ _ _ _ _ h
                                                     exact ⟨ha, hb, plain_token_of_ne _ (by simp [hc]) (by simp [hc])
                                                       (by simp [hc])⟩)
                                            · rw [if_neg hx21] at h
                                              by_cases hx22 : c0 = ':'
                                              · rw [if_pos hx22] at h
                                                (try split_ifs at h) <;>
                                                  first
                                                    | exact Res.noConfusion h
                                                    | (obtain ⟨ha, hb, hc⟩ := emit_frame _ _ _ _ _ h
                                                       exact ⟨ha, hb, plain_token_of_ne _ (by simp [hc]) (by simp [hc])
                                                         (by simp [hc])⟩)
                                              · rw [if_neg hx22] at h
                                                by_cases hx23 : c0 = ';'
                                                · rw [if_pos hx23] at h
                                                  (try split_ifs at h) <;>
                                                    first
                                                      | exact Res.noConfusion h
                                                      | (obtain ⟨ha, hb, hc⟩ := emit_frame _ _ _ _ _ h
                                                         exact ⟨ha, hb, plain_token_of_ne _ (by simp [hc]) (by simp [hc])
                                                           (by simp [hc])⟩)
                                                · rw [if_neg hx23] at h
                                                  by_cases hx24 : c0 = '<'
                                                  · rw [if_pos hx24] at h
                                                    (try split_ifs at h) <;>
                                                      first
                                                        | exact Res.noConfusion h
                                                        | (obtain ⟨ha, hb, hc⟩ := emit_frame _ _ _ _ _ h
                                                           exact ⟨ha, hb, plain_token_of_ne _ (by simp [hc]) (by simp [hc])
                                                             (by simp [hc])⟩)
                                                  · rw [if_neg hx24] at h
                                                    by_cases hx25 : c0 = '>'
                                                    · rw [if_pos hx25] at h
                                                      (try split_ifs at h) <;>
                                                        first
                                                          | exact Res.noConfusion h
                                                          | (obtain ⟨ha, hb, hc⟩ := emit_frame _ _ _ _ _ h
                                                             exact ⟨ha, hb, plain_token_of_ne _ (by simp [hc]) (by simp [hc])
                                                               (by simp [hc])⟩)
                                                    · rw [if_neg hx25] at h
                                                      by_cases hx26 : c0 = ','
                                                      · rw [if_pos hx26] at h
                                                        (try split_ifs at h) <;>
                                                          first
                                                            | exact Res.noConfusion h
                                                            | (obtain ⟨ha, hb, hc⟩ := emit_frame _ _ _ _ _ h
                                                               exact ⟨ha, hb, plain_token_of_ne _ (by simp [hc]) (by simp [hc])
                                                                 (by simp [hc])⟩)
                                                      · rw [if_neg hx26] at h
                                                        by_cases hx27 : c0 = '.'
                                                        · rw [if_pos hx27] at h
                                                          (try split_ifs at h) <;>
                                                            first
                                                              | exact Res.noConfusion h
                                                              | (obtain ⟨ha, hb, hc⟩ := emit_frame _ _ _ _ _ h
                                                                 exact ⟨ha, hb, plain_token_of_ne _ (by simp [hc]) (by simp [hc])
                                                                   (by simp [hc])⟩)
                                                        · rw [if_neg hx27] at h
                                                          by_cases hx28 : c0 = '\n' ∨ c0 = '\r'
                                                          · rw [if_pos hx28] at h
                                                            (try split_ifs at h) <;>
                                                              first
                                                                | exact Res.noConfusion h
                                                                | (obtain ⟨ha, hb, hc⟩ := emit_frame _ _ _ _ _ h
                                                                   exact ⟨ha, hb, plain_token_of_ne _ (by simp [hc]) (by simp [hc])
                                                                     (by simp [hc])⟩)
                                                          · rw [if_neg hx28] at h
                                                            by_cases hx29 : c0 = ' ' ∨ c0 = '\t' ∨ c0 = '\x0c'
                                                            · rw [if_pos hx29] at h
                                                              obtain ⟨u, s1, hw, h2⟩ := bind_eq_ok h
                                                              simp only [Res.ok.injEq] at h2
                                                              obtain ⟨rfl, rfl⟩ := h2
                                                              obtain ⟨ha, hb⟩ := ws_run_frame _ _ _ _ hw
                                                              exact ⟨ha, hb, plain_token_of_ne _ (by simp) (by simp) (by simp)⟩
                                                            · rw [if_neg hx29] at h
                                                              by_cases hx30 : c0 = '\\' ∧ (s.char_reader.w1 = some '\n' ∨ s.char_reader.w1 = some '\r')
                                                              · rw [if_pos hx30] at h
                                                                exact Res.noConfusion h
                                                              · rw [if_neg hx30] at h
                                                                by_cases hx31 : c0 = '\\' ∧ s.char_reader.w1 = none
                                                                · rw [if_pos hx31] at h
                                                                  exact Res.noConfusion h
                                                                · rw [if_neg hx31] at h
                                                                  by_cases hx32 : is_emoji_presentation c0 = true
                                                                  · rw [if_pos hx32] at h
                                                                    (try split_ifs at h) <;>
                                                                      first
                                                                        | exact Res.noConfusion h
                                                                        | (obtain ⟨ha, hb, hc⟩ := emit_frame _ _ _ _ _ h
                                                                           exact ⟨ha, hb, plain_token_of_ne _ (by simp [hc]) (by simp [hc])
                                                                             (by simp [hc])⟩)
                                                                  · rw [if_neg hx32] at h
                                                                    exact Res.noConfusion h

theorem compare_zero_cases (a : IndentationLevel) (loc : Nat) :
    a.compare_strict ⟨0, 0⟩ loc = .ok .eq ∨ a.compare_strict ⟨0, 0⟩ loc = .ok .gt := by
  unfold IndentationLevel.compare_strict
  cases ht : compare a.tabs (0 : Nat) with
  | lt =>
    have := Nat.compare_eq_lt.mp ht
    omega
  | eq =>
    cases hs : compare a.spaces (0 : Nat) with
    | lt =>
      have := Nat.compare_eq_lt.mp hs
      omega
    | eq => exact Or.inl rfl
    | gt => exact Or.inr rfl
  | gt =>
    rw [if_pos (Nat.zero_le _)]
    exact Or.inr rfl

theorem getLast_tail_of_two (l : List IndentationLevel) (h : 2 ≤ l.length) :
    l.tail.getLast? = l.getLast? := by
  match l, h with
  | a :: b :: r, _ => simp [List.getLast?_cons_cons]

theorem getLast_cons_of_ne_nil (a : IndentationLevel) (l : List IndentationLevel)
    (h : l ≠ []) : (a :: l).getLast? = l.getLast? := by
  match l, h with
  | b :: r, _ => simp [List.getLast?_cons_cons]

theorem eq_singleton_of_len_one (l : List IndentationLevel) (x : IndentationLevel)
    (hlen : l.length = 1) (hlast : l.getLast? = some x) : l = [x] := by
  match l, hlen with
  | [a], _ =>
    simp [List.getLast?_singleton] at hlast
    rw [hlast]

theorem tok_bal_all_dedent (ds : List (Token × TextRange))
    (h : ∀ t ∈ ds, t.1 = Token.Dedent) : tok_bal ds = -(ds.length : Int) := by
  induction ds with
  | nil => simp [tok_bal_nil]
  | cons d rest ih =>
    have hd : d.1 = Token.Dedent := h d (by simp)
    have hrest : ∀ t ∈ rest, t.1 = Token.Dedent := fun t ht => h t (by simp [ht])
    have : tok_bal (d :: rest) = tok_bal [d] + tok_bal rest := by
      have := tok_bal_append [d] rest
      simpa using this
    rw [this, ih hrest]
    have hb : tok_bal [d] = -1 := by
      have : d = (Token.Dedent, d.2) := by
        rw [show d = (d.1, d.2) from rfl, hd]
      rw [this]
      exact tok_bal_dedent d.2
    rw [hb]
    simp

theorem eof_free_all_dedent (ds : List (Token × TextRange))
    (h : ∀ t ∈ ds, t.1 = Token.Dedent) : eof_free ds := by
  intro t ht
  rw [h t ht]
  simp

theorem tok_bal_cons (t : Token × TextRange) (l : List (Token × TextRange)) :
    tok_bal (t :: l) = tok_bal [t] + tok_bal l := by
  have := tok_bal_append [t] l
  simpa using this

theorem flush_dedents_spec :
    ∀ (n : Nat) (s : Lexer) (lv : IndentationLevel),
      s.indentations.length ≤ n → s.indentations.getLast? = some lv →
      (flush_dedents n s).indentations = [lv] ∧
      ∃ ds, (flush_dedents n s).queue = s.queue ++ ds ∧
        ds.length = s.indentations.length - 1 ∧ ∀ t ∈ ds, t.1 = Token.Dedent := by
  intro n
  induction n with
  | zero =>
    intro s lv hle hlast
    have h0 : s.indentations.length = 0 := Nat.le_zero.mp hle
    rw [List.length_eq_zero] at h0
    rw [h0] at hlast
    simp at hlast
  | succ m ih =>
    intro s lv hle hlast
    rw [flush_dedents]
    split
    · rename_i h1
      refine ⟨eq_singleton_of_len_one _ _ h1 hlast, [], by simp, by simp [h1], by simp⟩
    · rename_i h1
      have hne : s.indentations ≠ [] := by
        intro hc
        rw [hc] at hlast
        simp at hlast
      have hge : 2 ≤ s.indentations.length := by
        have : s.indentations.length ≠ 0 := by
          intro hc
          exact hne (List.length_eq_zero.mp hc)
        omega
      set s1 : Lexer :=
        ({ s with indentations := s.indentations.tail }).push_queue
          (Token.Dedent, TextRange.empty s.char_cursor) with hs1
      have hlen1 : s1.indentations.length = s.indentations.length - 1 := by
        rw [hs1]
        simp [Lexer.push_queue, List.length_tail]
      have hlast1 : s1.indentations.getLast? = some lv := by
        rw [hs1]
        simp only [Lexer.push_queue]
        rw [getLast_tail_of_two _ hge]
        exact hlast
      obtain ⟨hia, ⟨ds1, hq1, hl1, hd1⟩⟩ := ih s1 lv (by omega) hlast1
      refine ⟨hia, (Token.Dedent, TextRange.empty s.char_cursor) :: ds1, ?_, ?_, ?_⟩
      · rw [hq1, hs1]
        simp [Lexer.push_queue]
      · simp only [List.length_cons, hl1, hlen1]
        omega
      · intro t ht
        rcases List.mem_cons.mp ht with h | h
        · rw [h]
        · exact hd1 t h

set_option maxHeartbeats 1600000 in
theorem populate_frame (fuel : Nat) (s s' : Lexer) (lv : IndentationLevel)
    (hlast : s.indentations.getLast? = some lv)
    (h : populate_results_queue fuel s = .ok () s') :
    ∃ extra, s'.queue = s.queue ++ extra ∧
      ((eof_free extra ∧ tok_bal extra = 0 ∧ s'.indentations = s.indentations) ∨
       (∃ pre e, extra = pre ++ [(Token.EndOfFile, e)] ∧ eof_free pre ∧
          tok_bal pre = 1 - (s.indentations.length : Int) ∧ s'.indentations = [lv])) := by
  have hpos : 1 ≤ s.indentations.length := by
    cases hi : s.indentations with
    | nil =>
      rw [hi] at hlast
      simp at hlast
    | cons a r => simp [hi]
  rw [populate_results_queue.eq_def] at h
  split at h
  · rename_i c hc
    split_ifs at h with hid
    · split at h
      · rename_i r htag
        obtain ⟨token, s1, hr, h2⟩ := bind_eq_ok h
        simp only [Res.ok.injEq] at h2
        obtain ⟨-, rfl⟩ := h2
        obtain ⟨ha, hb, hp⟩ := try_lex_tagged_string_frame _ _ _ _ _ htag hr
        exact ⟨[token], by simp [Lexer.push_queue, ha],
          Or.inl ⟨eof_free_single token hp.2.2, tok_bal_plain token.1 token.2 hp,
            by simp [Lexer.push_queue, hb]⟩⟩
      · obtain ⟨token, s1, hr, h2⟩ := bind_eq_ok h
        simp only [Res.ok.injEq] at h2
        obtain ⟨-, rfl⟩ := h2
        obtain ⟨ha, hb, hp⟩ := lex_identifier_or_keyword_frame _ _ _ _ hr
        exact ⟨[token], by simp [Lexer.push_queue, ha],
          Or.inl ⟨eof_free_single token hp.2.2, tok_bal_plain token.1 token.2 hp,
            by simp [Lexer.push_queue, hb]⟩⟩
    · obtain ⟨token, s1, hl, h2⟩ := bind_eq_ok h
      obtain ⟨ha, hb, hp⟩ := lex_next_frame _ _ _ _ hl
      split_ifs at h2 with hw
      · simp only [Res.ok.injEq] at h2
        obtain ⟨-, rfl⟩ := h2
        exact ⟨[], by simp [ha], Or.inl ⟨eof_free_nil, tok_bal_nil, hb⟩⟩
      · simp only [Res.ok.injEq] at h2
        obtain ⟨-, rfl⟩ := h2
        exact ⟨[token], by simp [Lexer.push_queue, ha],
          Or.inl ⟨eof_free_single token hp.2.2, tok_bal_plain token.1 token.2 hp,
            by simp [Lexer.push_queue, hb]⟩⟩
  · split_ifs at h with hnest hbeg
    · injection h with h2 h3
      subst h3
      obtain ⟨hia, ds, hq, hlen, hded⟩ :=
        flush_dedents_spec s.indentations.length s lv le_rfl hlast
      refine ⟨ds ++ [(Token.EndOfFile,
          TextRange.empty (flush_dedents s.indentations.length s).char_cursor)],
        ?_, Or.inr ⟨ds, _, rfl, eof_free_all_dedent ds hded, ?_, ?_⟩⟩
      · simp [Lexer.push_queue, hq]
      · rw [tok_bal_all_dedent ds hded, hlen]
        omega
      · simp [Lexer.push_queue, hia]
    · injection h with h2 h3
      subst h3
      set s1 : Lexer := ({ s with at_begin_of_line := true } : Lexer).push_queue
        (Token.Newline, TextRange.empty s.char_cursor) with hs1
      have hlast1 : s1.indentations.getLast? = some lv := by
        simp [hs1, Lexer.push_queue, hlast]
      have hlen1 : s1.indentations.length = s.indentations.length := by
        simp [hs1, Lexer.push_queue]
      obtain ⟨hia, ds, hq, hlen, hded⟩ :=
        flush_dedents_spec s1.indentations.length s1 lv le_rfl hlast1
      refine ⟨(Token.Newline, TextRange.empty s.char_cursor) :: (ds ++ [(Token.EndOfFile,
          TextRange.empty (flush_dedents s1.indentations.length s1).char_cursor)]),
        ?_, Or.inr ⟨(Token.Newline, TextRange.empty s.char_cursor) :: ds, _, rfl,
          ?_, ?_, ?_⟩⟩
      · simp only [Lexer.push_queue]
        rw [hq]
        simp [hs1, Lexer.push_queue]
      · intro t ht
        rcases List.mem_cons.mp ht with hh | hh
        · rw [hh]
          simp
        · exact eof_free_all_dedent ds hded t hh
      · rw [tok_bal_cons, tok_bal_all_dedent ds hded, hlen, hlen1]
        have hnl : tok_bal [(Token.Newline, TextRange.empty s.char_cursor)] = 0 :=
          tok_bal_plain _ _ (plain_token_of_ne _ (by simp) (by simp) (by simp))
        rw [hnl]
        omega
      · simp [Lexer.push_queue, hia]

theorem lex_single_line_comment_no_error (fuel : Nat) (s : Lexer) (e : LexicalError)
    (s' : Lexer) (h : lex_single_line_comment fuel s = .error e s') : False := by
  simp only [lex_single_line_comment] at h
  exact comment_loop_no_error _ _ _ _ _ _ h

set_option maxHeartbeats 1600000 in
theorem indent_loop_delta :
    ∀ (fuel : Nat) (lvl : IndentationLevel) (s : Lexer) (r : IndentationLevel) (s' : Lexer),
      indent_loop fuel lvl s = .ok r s' →
      s'.indentations = s.indentations ∧
      ∃ extra, s'.queue = s.queue ++ extra ∧ eof_free extra ∧ tok_bal extra = 0 := by
  intro fuel
  induction fuel with
  | zero => intro lvl s r s' h; exact Res.noConfusion h
  | succ n ih =>
    intro lvl s r s' h
    simp only [indent_loop] at h
    split at h
    · rename_i c hc
      split_ifs at h <;>
        first
          | exact Res.noConfusion h
          | (simp only [Res.ok.injEq] at h
             obtain ⟨rfl, rfl⟩ := h
             exact ⟨rfl, [], by simp, eof_free_nil, tok_bal_nil⟩)
          | (obtain ⟨hia, extra, hq, hf, hb⟩ := ih _ _ _ _ h
             refine ⟨?_, extra, ?_, hf, hb⟩
             · rw [hia]
               simp
             · rw [hq]
               simp)
          | (obtain ⟨hia, extra, hq, hf, hb⟩ := ih _ _ _ _ h
             constructor
             · rw [hia]
               simp [Lexer.push_queue]
             · refine ⟨(Token.NonLogicalNewline,
                   TextRange.make s.char_cursor (s.jump_forward_n_chars 1).char_cursor) ::
                     extra, ?_, ?_, ?_⟩
               · rw [hq]
                 simp [Lexer.push_queue]
               · intro t ht
                 rcases List.mem_cons.mp ht with hh | hh
                 · rw [hh]
                   simp
                 · exact hf t hh
               · rw [tok_bal_cons, hb,
                   tok_bal_plain _ _ (plain_token_of_ne _ (by simp) (by simp) (by simp))]
                 simp)
          | (rcases hcm : lex_single_line_comment n s with ⟨tk, s1⟩ | ⟨e2, s1⟩ | - | - <;>
               rw [hcm] at h
             · obtain ⟨ha1, hb1, -⟩ := lex_single_line_comment_frame _ _ _ _ hcm
               obtain ⟨hia, extra, hq, hf, hb⟩ := ih _ _ _ _ h
               refine ⟨hia.trans hb1, extra, ?_, hf, hb⟩
               rw [hq, ha1]
             · exact absurd hcm fun hc =>
                 lex_single_line_comment_no_error _ _ _ _ hc
             · exact Res.noConfusion h
             · exact Res.noConfusion h)
    · simp only [Res.ok.injEq] at h
      obtain ⟨rfl, rfl⟩ := h
      exact ⟨rfl, [], by simp, eof_free_nil, tok_bal_nil⟩

set_option maxHeartbeats 1600000 in
theorem dedent_loop_spec :
    ∀ (fuel : Nat) (lvl : IndentationLevel) (s : Lexer) (s' : Lexer),
      s.indentations.getLast? = some ⟨0, 0⟩ →
      dedent_loop fuel lvl s = .ok () s' →
      s'.indentations.getLast? = some (⟨0, 0⟩ : IndentationLevel) ∧
      ∃ extra, s'.queue = s.queue ++ extra ∧ eof_free extra ∧
        tok_bal extra = (s'.indentations.length : Int) - s.indentations.length := by
  intro fuel
  induction fuel with
  | zero => intro lvl s s' hg h; exact Res.noConfusion h
  | succ n ih =>
    intro lvl s s' hg h
    simp only [dedent_loop] at h
    split at h <;>
      first
        | exact Res.noConfusion h
        | (simp only [Res.ok.injEq] at h
           obtain ⟨-, rfl⟩ := h
           exact ⟨hg, [], by simp, eof_free_nil, by simp [tok_bal_nil]⟩)
        | (rename_i hcmp
           by_cases hl1 : s.indentations.length = 1
           · exfalso
             have hsing : s.indentations = [⟨0, 0⟩] := eq_singleton_of_len_one _ _ hl1 hg
             have hh : s.indentations.headD default = ⟨0, 0⟩ := by rw [hsing]; rfl
             rw [hh] at hcmp
             rcases compare_zero_cases lvl s.char_cursor with hq | hq <;>
               (rw [hq] at hcmp; simp at hcmp)
           · have hne : s.indentations ≠ [] := by
               intro hc
               rw [hc] at hg
               simp at hg
             have hge : 2 ≤ s.indentations.length := by
               have : s.indentations.length ≠ 0 := by
                 intro hc
                 exact hne (List.length_eq_zero.mp hc)
               omega
             rw [if_neg hl1] at h
             set s1 : Lexer := ({ s with indentations := s.indentations.tail } : Lexer).push_queue
               (Token.Dedent, TextRange.empty s.char_cursor) with hs1
             have hg1 : s1.indentations.getLast? = some (⟨0, 0⟩ : IndentationLevel) := by
               rw [hs1]
               simp only [Lexer.push_queue]
               rw [getLast_tail_of_two _ hge]
               exact hg
             obtain ⟨hg', extra, hq, hf, hb⟩ := ih lvl s1 s' hg1 h
             refine ⟨hg', (Token.Dedent, TextRange.empty s.char_cursor) :: extra, ?_, ?_, ?_⟩
             · rw [hq]
               simp [hs1, Lexer.push_queue]
             · intro t ht
               rcases List.mem_cons.mp ht with hh | hh
               · rw [hh]
                 simp
               · exact hf t hh
             · rw [tok_bal_cons, tok_bal_dedent, hb]
               have hlen1 : s1.indentations.length = s.indentations.length - 1 := by
                 simp [hs1, Lexer.push_queue, List.length_tail]
               rw [hlen1]
               omega)

set_option maxHeartbeats 1600000 in
theorem handle_indentations_spec (fuel : Nat) (s s' : Lexer)
    (hg : s.indentations.getLast? = some ⟨0, 0⟩)
    (h : handle_indentations fuel s = .ok () s') :
    s'.indentations.getLast? = some (⟨0, 0⟩ : IndentationLevel) ∧
    ∃ extra, s'.queue = s.queue ++ extra ∧ eof_free extra ∧
      tok_bal extra = (s'.indentations.length : Int) - s.indentations.length := by
  simp only [handle_indentations] at h
  obtain ⟨lvl, s1, hil, h2⟩ := bind_eq_ok h
  obtain ⟨hia, extra1, hq1, hf1, hb1⟩ := indent_loop_delta _ _ _ _ _ hil
  have hg1 : s1.indentations.getLast? = some (⟨0, 0⟩ : IndentationLevel) := by
    rw [hia]
    exact hg
  have hlen1 : s1.indentations.length = s.indentations.length := by rw [hia]
  have hne1 : s1.indentations ≠ [] := by
    intro hc
    rw [hc] at hg1
    simp at hg1
  split at h2 <;>
    first
      | exact Res.noConfusion h2
      | (simp only [Res.ok.injEq] at h2
         obtain ⟨-, rfl⟩ := h2
         exact ⟨hg1, extra1, hq1, hf1, by rw [hb1, hia]; simp⟩)
      | (simp only [Res.ok.injEq] at h2
         obtain ⟨-, rfl⟩ := h2
         refine ⟨?_, extra1 ++ [(Token.Indent,
             TextRange.make (s1.char_cursor - lvl.spaces - lvl.tabs) s1.char_cursor)],
           ?_, ?_, ?_⟩
         · simp only [Lexer.push_queue]
           rw [getLast_cons_of_ne_nil _ _ hne1]
           exact hg1
         · simp only [Lexer.push_queue]
           rw [hq1, List.append_assoc]
         · refine eof_free_append _ _ hf1 (eof_free_single _ ?_)
           simp
         · rw [tok_bal_append, hb1]
           have hsi : tok_bal [(Token.Indent,
               TextRange.make (s1.char_cursor - lvl.spaces - lvl.tabs) s1.char_cursor)] = 1 :=
             tok_bal_indent _
           rw [hsi]
           simp only [Lexer.push_queue]
           rw [show (({ s1 with indentations := lvl :: s1.indentations } :
             Lexer).indentations.length) = s1.indentations.length + 1 from by simp]
           rw [hlen1]
           omega)
      | (obtain ⟨hg', extra2, hq2, hf2, hb2⟩ := dedent_loop_spec _ _ _ _ hg1 h2
         refine ⟨hg', extra1 ++ extra2, ?_, eof_free_append _ _ hf1 hf2, ?_⟩
         · rw [hq2, hq1, List.append_assoc]
         · rw [tok_bal_append, hb1, hb2, hlen1]
           omega)

set_option maxHeartbeats 1600000 in
theorem inner_next_spec :
    ∀ (fuel : Nat) (s : Lexer) (b : Int) (t : Token × TextRange) (s' : Lexer),
      QInv b s →
      inner_next fuel s = .ok t s' →
      (t.1 = Token.EndOfFile ∧ b = 0 ∧ s'.indentations = [⟨0, 0⟩]) ∨
      (t.1 ≠ Token.EndOfFile ∧ QInv (b + tok_bal [t]) s') := by
  intro fuel
  induction fuel with
  | zero => intro s b t s' hq h; exact Res.noConfusion h
  | succ n ih =>
    intro s b t s' hq h
    simp only [inner_next] at h
    split at h
    · -- the queue holds a token: it is drained
      rename_i t0 rest hqe
      simp only [Res.ok.injEq] at h
      obtain ⟨rfl, rfl⟩ := h
      obtain ⟨hgs, hA | hB⟩ := hq
      · have ht0 : t0.1 ≠ Token.EndOfFile := hA.1 t0 (by rw [hqe]; simp)
        right
        refine ⟨ht0, hgs, Or.inl ⟨?_, ?_⟩⟩
        · intro u hu
          exact hA.1 u (by rw [hqe]; simp [hu])
        · have hbal := hA.2
          rw [hqe, tok_bal_cons] at hbal
          show b + tok_bal [t0] + tok_bal rest = (s.indentations.length : Int) - 1
          omega
      · obtain ⟨pre, e, hqeq, hfpre, hbal, hlen⟩ := hB
        rw [hqe] at hqeq
        cases pre with
        | nil =>
          simp only [List.nil_append, List.cons.injEq] at hqeq
          obtain ⟨ht0, hrest⟩ := hqeq
          left
          refine ⟨by rw [ht0], ?_, ?_⟩
          · rw [tok_bal_nil] at hbal
            omega
          · exact eq_singleton_of_len_one _ _ hlen hgs
        | cons p0 pre2 =>
          simp only [List.cons_append, List.cons.injEq] at hqeq
          obtain ⟨ht0, hrest⟩ := hqeq
          have ht0ne : t0.1 ≠ Token.EndOfFile := by
            rw [ht0]
            exact hfpre p0 (by simp)
          right
          refine ⟨ht0ne, hgs, Or.inr ⟨pre2, e, hrest, ?_, ?_, hlen⟩⟩
          · intro u hu
            exact hfpre u (by simp [hu])
          · rw [tok_bal_cons] at hbal
            rw [ht0]
            show b + tok_bal [p0] + tok_bal pre2 = 0
            omega
    · -- the queue is empty: scan, then recurse
      rename_i hqe
      obtain ⟨hgs, hA | hB⟩ := hq
      case inr =>
        exfalso
        obtain ⟨pre, e, hqeq, -, -, -⟩ := hB
        rw [hqe] at hqeq
        exact absurd hqeq.symm (by simp)
      obtain ⟨hfq, hbal⟩ := hA
      rw [hqe, tok_bal_nil] at hbal
      split_ifs at h with habg
      · obtain ⟨u1, s1, hh, h2⟩ := bind_eq_ok h
        obtain ⟨u2, s2, hp, h3⟩ := bind_eq_ok h2
        obtain ⟨hg1, extra1, hq1, hf1, hb1⟩ := handle_indentations_spec _ _ _ hgs hh
        rw [hqe, List.nil_append] at hq1
        obtain ⟨extra2, hq2, hcase⟩ := populate_frame _ _ _ _ hg1 hp
        have hquv : QInv b s2 := by
          rcases hcase with ⟨hfe2, hbe2, hieq⟩ | ⟨pre, e, hpeq, hfp, hbp, hieq⟩
          · refine ⟨?_, Or.inl ⟨?_, ?_⟩⟩
            · show s2.indentations.getLast? = _
              rw [hieq]
              exact hg1
            · rw [hq2, hq1]
              exact eof_free_append _ _ hf1 hfe2
            · rw [hq2, hq1, tok_bal_append, hb1, hbe2, hieq]
              omega
          · refine ⟨?_, Or.inr ⟨extra1 ++ pre, e, ?_, ?_, ?_, ?_⟩⟩
            · show s2.indentations.getLast? = _
              rw [hieq]
              rfl
            · rw [hq2, hq1, hpeq, List.append_assoc]
            · exact eof_free_append _ _ hf1 hfp
            · rw [tok_bal_append, hb1, hbp]
              omega
            · rw [hieq]
              rfl
        exact ih s2 b t s' hquv h3
      · obtain ⟨u2, s1, hp, h3⟩ := bind_eq_ok h
        obtain ⟨extra2, hq2, hcase⟩ := populate_frame _ _ _ _ hgs hp
        rw [hqe, List.nil_append] at hq2
        have hquv : QInv b s1 := by
          rcases hcase with ⟨hfe2, hbe2, hieq⟩ | ⟨pre, e, hpeq, hfp, hbp, hieq⟩
          · refine ⟨?_, Or.inl ⟨?_, ?_⟩⟩
            · show s1.indentations.getLast? = _
              rw [hieq]
              exact hgs
            · rw [hq2]
              exact hfe2
            · rw [hq2, hbe2, hieq]
              omega
          · refine ⟨?_, Or.inr ⟨pre, e, ?_, ?_, ?_, ?_⟩⟩
            · show s1.indentations.getLast? = _
              rw [hieq]
              rfl
            · rw [hq2, hpeq]
            · exact hfp
            · rw [hbp]
              omega
            · rw [hieq]
              rfl
        exact ih s1 b t s' hquv h3

theorem collect_tokens_go_spec :
    ∀ (fuel : Nat) (s : Lexer) (acc ts : List (Token × TextRange)) (s' : Lexer),
      QInv (tok_bal acc) s →
      collect_tokens_go fuel s acc = .ok ts s' →
      tok_bal ts = 0 ∧ s'.indentations = [⟨0, 0⟩] := by
  intro fuel
  induction fuel with
  | zero => intro s acc ts s' hq h; exact Res.noConfusion h
  | succ n ih =>
    intro s acc ts s' hq h
    simp only [collect_tokens_go] at h
    split at h <;>
      first
        | exact Res.noConfusion h
        | (rename_i t0 s1 hin
           rcases inner_next_spec _ _ _ _ _ hq hin with ⟨heof, hb0, hind⟩ | ⟨hne, hquv⟩
           · rw [if_pos heof] at h
             simp only [Res.ok.injEq] at h
             obtain ⟨rfl, rfl⟩ := h
             exact ⟨hb0, hind⟩
           · rw [if_neg hne] at h
             exact ih s1 (acc ++ [t0]) ts s' (by rw [tok_bal_append]; exact hquv) h)

/-- C5: whenever the lexer drains an input's complete public token stream
without a `LexicalError` (the drain reaches and consumes the end-of-file
sentinel), the total number of `Indent` tokens in the stream equals the
total number of `Dedent` tokens, and the indentation stack afterwards holds
exactly its single zero base level. -/
theorem C5_indent_dedent_balance (fuel : Nat) (input : List Char)
    (ts : List (Token × TextRange)) (s' : Lexer)
    (h : collect_tokens fuel (Lexer.new input) = .ok ts s') :
    count_token Token.Indent ts = count_token Token.Dedent ts ∧
      s'.indentations = [⟨0, 0⟩] := by
  have hind : (Lexer.new input).indentations = [⟨0, 0⟩] := by
    rw [Lexer.new]
    split <;> simp
  have hque : (Lexer.new input).queue = [] := by
    rw [Lexer.new]
    split <;> simp
  have hq0 : QInv (tok_bal []) (Lexer.new input) := by
    refine ⟨?_, Or.inl ⟨?_, ?_⟩⟩
    · show (Lexer.new input).indentations.getLast? = _
      rw [hind]
      rfl
    · rw [hque]
      exact eof_free_nil
    · rw [hque, hind]
      decide
  simp only [collect_tokens] at h
  obtain ⟨hb, hi⟩ := collect_tokens_go_spec fuel _ [] ts s' hq0 h
  refine ⟨?_, hi⟩
  unfold tok_bal at hb
  omega

/-- Witness for C5: the source `a:`, newline, one-space-indented `b`,
newline lexes completely; the stream holds one `Indent` and one `Dedent`,
and the final stack is the single zero base level. -/
theorem C5_indent_dedent_balance_witness :
    count_token Token.Indent
        [(Token.Name ['a'], TextRange.make 3 4), (Token.Colon, TextRange.make 4 5),
         (Token.Newline, TextRange.make 5 6), (Token.Indent, TextRange.make 5 6),
         (Token.Name ['b'], TextRange.make 6 6), (Token.Newline, TextRange.make 6 6),
         (Token.Dedent, TextRange.make 6 6)] =
      count_token Token.Dedent
        [(Token.Name ['a'], TextRange.make 3 4), (Token.Colon, TextRange.make 4 5),
         (Token.Newline, TextRange.make 5 6), (Token.Indent, TextRange.make 5 6),
         (Token.Name ['b'], TextRange.make 6 6), (Token.Newline, TextRange.make 6 6),
         (Token.Dedent, TextRange.make 6 6)] ∧
      ({ char_reader := { source := [], w0 := none, w1 := none, w2 := none, cursor := 6 },
         at_begin_of_line := true, nesting := 0,
         indentations := [⟨0, 0⟩], queue := [] } : Lexer).indentations = [⟨0, 0⟩] :=
  C5_indent_dedent_balance 32 ['a', ':', '\n', ' ', 'b', '\n'] _ _ (by decide)
